import Mathlib

namespace Budget

/-!
# Verification of the budget projection engine

This file gives a shallow embedding, in Lean 4, of the core calculation layer of
the budget application (`src/calculations.ts`, `src/utils/migration.ts`,
`src/types.ts`) and proves properties of the projection engine, the pay-date
and expense-occurrence generators, the period-transition/reconciliation logic
and the history migration.

Modelling conventions:
* Calendar dates are modelled as integer day numbers (days since 1970-01-01,
  the value of a JS `Date` at local midnight divided by 86 400 000).  ISO date
  strings stored in the configuration are modelled directly by their day
  numbers; `parseISO` / `toISOString().split('T')[0]` are then the identity.
  `date-fns` helpers (`addDays`, `addWeeks`, `differenceInDays`, `isBefore`,
  `isAfter`, `startOfDay`) act on midnight dates and become plain integer
  arithmetic.  Civil (year/month/day) components, needed for the month-based
  arithmetic (`new Date(y, m, d)`, `getFullYear`, `getMonth`, `getDate`,
  `addMonths`), are recovered through an executable conversion
  `dayNumberToYmd` whose correctness is proved below.
* JS `number` currency amounts are modelled by `Rat` (the spec's "2-decimal
  currency" semantics); `Math.round(x*100)/100` becomes `round2`.
* `while` loops are modelled by structurally recursive functions with explicit
  fuel; the fuel is chosen generously and, where a claim depends on it, the
  sufficiency of the fuel is proved.
-/

/-! ## Calendar arithmetic (day numbers and civil dates)

`daysFromCivil y m d` is the day number of the JS expression
`new Date(y, m, d)` (0-based month, with JS rollover semantics for any
integer month and day).  `dayNumberToYmd` is its inverse on canonical dates.
-/

/-- Gregorian leap-year test (as `new Date(y,1,29).getDate() === 29`). -/
def isLeap (y : Int) : Bool :=
  (y % 4 == 0 && y % 100 != 0) || (y % 400 == 0)

/-- Number of days in 0-based month `m` of year `y` (`m` must be in `[0,11]`);
this is `new Date(y, m+1, 0).getDate()`. -/
def daysInMonth (y : Int) (m : Int) : Int :=
  if m = 0 then 31
  else if m = 1 then (if isLeap y then 29 else 28)
  else if m = 2 then 31
  else if m = 3 then 30
  else if m = 4 then 31
  else if m = 5 then 30
  else if m = 6 then 31
  else if m = 7 then 31
  else if m = 8 then 30
  else if m = 9 then 31
  else if m = 10 then 30
  else 31

/-- Leap-year count: number of Gregorian leap years in `(0, y]` (signed). -/
def leaps (y : Int) : Int := y / 4 - y / 100 + y / 400

/-- Day number of January 1st of year `y` (1970-01-01 is day 0). -/
def jan1 (y : Int) : Int := 365 * (y - 1970) + (leaps (y - 1) - leaps 1969)

/-- 1 in a leap year, 0 otherwise. -/
def leapDay (y : Int) : Int := if isLeap y then 1 else 0

/-- Days from January 1st to the first of 0-based month `m ∈ [0,11]`. -/
def monthOffset (y : Int) (m : Int) : Int :=
  if m ≤ 0 then 0
  else if m = 1 then 31
  else if m = 2 then 59 + leapDay y
  else if m = 3 then 90 + leapDay y
  else if m = 4 then 120 + leapDay y
  else if m = 5 then 151 + leapDay y
  else if m = 6 then 181 + leapDay y
  else if m = 7 then 212 + leapDay y
  else if m = 8 then 243 + leapDay y
  else if m = 9 then 273 + leapDay y
  else if m = 10 then 304 + leapDay y
  else 334 + leapDay y

/-- Day number of `new Date(y, m, d)` (0-based month, JS rollover for any
integer `m` and `d`): month is normalised into `[0,11]` carrying into the
year, and the day offsets from the first of that month. -/
def daysFromCivil (y m d : Int) : Int :=
  jan1 ((12 * y + m) / 12) +
    monthOffset ((12 * y + m) / 12) ((12 * y + m) % 12) + (d - 1)

/-- A civil date: year, 0-based month, 1-based day. -/
structure Ymd where
  y : Int
  m : Int
  d : Int
  deriving DecidableEq

/-- Length of year `y` in days. -/
def yearLen (y : Int) : Int := if isLeap y then 366 else 365

/-- Scan years forward from `y` consuming `rem` days. -/
def findYear : Nat → Int → Int → Int × Int
  | 0, y, rem => (y, rem)
  | f + 1, y, rem =>
      if rem < yearLen y then (y, rem) else findYear f (y + 1) (rem - yearLen y)

/-- Scan months of year `y` forward from month `m` consuming `rem` days. -/
def findMonth : Nat → Int → Int → Int → Int × Int
  | 0, _, m, rem => (m, rem)
  | f + 1, y, m, rem =>
      if rem < daysInMonth y m then (m, rem)
      else findMonth f y (m + 1) (rem - daysInMonth y m)

/-- Civil components of a day number (inverse of `daysFromCivil` on canonical
dates).  Reduces to a 400-year era plus a bounded year/month scan, so it is
executable by the kernel. -/
def dayNumberToYmd (n : Int) : Ymd :=
  let z := n - jan1 1600
  let era := z / 146097
  let zz := z % 146097
  let y0 := 1600 + 400 * era
  let p := findYear 400 y0 zz
  let q := findMonth 12 p.1 0 p.2
  ⟨p.1, q.1, q.2 + 1⟩

/-! ### Linear months

`firstOfM M` is the day number of the first day of linear month `M`
(month `M % 12` of year `M / 12`); `dimM M` is that month's length. -/

/-- Day number of the first of linear month `M`. -/
def firstOfM (M : Int) : Int := daysFromCivil 0 M 1

/-- Number of days in linear month `M`. -/
def dimM (M : Int) : Int := daysInMonth (M / 12) (M % 12)

/-! ### Correctness of `dayNumberToYmd` -/

/-- JS `Date.prototype.getDay`: 0 = Sunday, …, 6 = Saturday
(1970-01-01, day 0, was a Thursday). -/
def dayOfWeek (d : Int) : Int := (d + 4) % 7

/-- date-fns `addMonths(d, k)`: move to month `m + k`, clamping the day of
month to the target month's length. -/
def addMonthsDN (d : Int) (k : Int) : Int :=
  daysFromCivil ((12 * (dayNumberToYmd d).y + (dayNumberToYmd d).m + k) / 12)
    ((12 * (dayNumberToYmd d).y + (dayNumberToYmd d).m + k) % 12)
    (min (dayNumberToYmd d).d
      (daysInMonth ((12 * (dayNumberToYmd d).y + (dayNumberToYmd d).m + k) / 12)
        ((12 * (dayNumberToYmd d).y + (dayNumberToYmd d).m + k) % 12)))

/-- `new Date(y, m+1, 0).getDate()`: the number of days of 0-based month `m`
of year `y`, with linear-month normalisation. -/
def lastDayOfMonth (y m : Int) : Int := dimM (12 * y + m)

/-! ## Data model (`src/types.ts`) -/

inductive PayFrequency where
  | weekly | biweekly | semimonthly | monthly
  deriving DecidableEq

inductive ExpenseFrequency where
  | weekly | biweekly | monthly | quarterly | yearly
  deriving DecidableEq

inductive WeekendHandling where
  | before | after | none
  deriving DecidableEq

structure SemiMonthlyConfig where
  firstPayDay : Int
  secondPayDay : Int
  deriving DecidableEq

structure MonthlyConfig where
  payDay : Int
  deriving DecidableEq

/-- `nextDueDate` (an ISO `YYYY-MM-DD` string) is modelled by its day
number. -/
structure RecurringExpense where
  id : String
  name : String
  amount : Rat
  frequency : ExpenseFrequency
  nextDueDate : Int
  deriving DecidableEq

structure ExpenseOccurrence where
  expenseId : String
  name : String
  amount : Rat
  date : Int
  deriving DecidableEq

structure AdHocTransaction where
  id : String
  periodNumber : Nat
  name : String
  amount : Rat
  isIncome : Bool
  deriving DecidableEq

structure PeriodStartSnapshot where
  periodStartDate : Int
  balance : Rat
  deriving DecidableEq

structure PeriodSpendEntry where
  periodEndDate : Int
  startingBalance : Rat
  expectedEnding : Rat
  actualEnding : Rat
  trueSpend : Rat
  deriving DecidableEq

inductive VarianceReason where
  | adhoc_expense | planned_cost_higher | baseline_miss
  deriving DecidableEq

structure VarianceExplanation where
  reason : VarianceReason
  amount : Rat
  description : Option String
  affectsBaseline : Bool
  deriving DecidableEq

inductive PeriodStatus where
  | completed | pending_confirmation | active
  deriving DecidableEq

/-- `confirmedAt` is an ISO datetime; it is modelled opaquely by an integer
timestamp. -/
structure HistoricalPeriod where
  id : String
  periodNumber : Nat
  startDate : Int
  endDate : Int
  startingBalance : Rat
  endingBalance : Rat
  projectedEndingBalance : Rat
  income : Rat
  recurringExpenses : Rat
  adHocIncome : Rat
  adHocExpenses : Rat
  baselineSpend : Rat
  variance : Rat
  varianceExplanations : List VarianceExplanation
  status : PeriodStatus
  confirmedAt : Option Int
  deriving DecidableEq

structure BudgetConfig where
  currentBalance : Rat
  paycheckAmount : Rat
  paycheckFrequency : PayFrequency
  nextPayDate : Int
  weekendHandling : WeekendHandling
  semiMonthlyConfig : SemiMonthlyConfig
  monthlyConfig : MonthlyConfig
  recurringExpenses : List RecurringExpense
  adHocTransactions : List AdHocTransaction
  baselineSpendPerPeriod : Rat
  savingsGoal : Rat
  currentBalanceAsOf : Option Int
  periodStartSnapshot : Option PeriodStartSnapshot
  periodSpendHistory : List PeriodSpendEntry
  periodsForBaselineCalc : Nat
  useCalculatedBaseline : Bool
  transitionHistoryRetentionDays : Int
  budgetStartDate : Option Int
  periods : List HistoricalPeriod
  periodConfirmationGraceDays : Nat
  deriving DecidableEq

structure ProjectionEntry where
  date : Int
  periodNumber : Nat
  income : Rat
  expenses : Rat
  expenseDetails : List ExpenseOccurrence
  adHocIncome : Rat
  adHocExpenses : Rat
  adHocDetails : List AdHocTransaction
  baselineSpend : Rat
  balanceAfterIncome : Rat
  balanceAfterExpenses : Rat
  balanceAfterBaseline : Rat
  deriving DecidableEq

structure GoalProjection where
  dateBeforeExpenses : Option Int
  dateAfterExpenses : Option Int
  dateAfterBaseline : Option Int
  periodsToGoal : Nat
  daysToGoal : Int
  deriving DecidableEq

/-! ## Calendar / recurrence primitives (`src/calculations.ts`) -/

/-- `adjustForWeekend` from `calculations.ts`.  The source branches first on
the day of week and then on the handling; the embedding transposes the two
(identical) case splits so each handling is a self-contained branch. -/
def adjustForWeekend (date : Int) (handling : WeekendHandling) : Int :=
  match handling with
  | .none => date
  | .before =>
      if dayOfWeek date = 0 then date - 2
      else if dayOfWeek date = 6 then date - 1
      else date
  | .after =>
      if dayOfWeek date = 0 then date + 1
      else if dayOfWeek date = 6 then date + 2
      else date

/-- A day number that is neither Saturday nor Sunday. -/
def IsWeekday (d : Int) : Prop := dayOfWeek d ≠ 0 ∧ dayOfWeek d ≠ 6

/-! ## Frequency conversion and rounding -/

/-- `FREQ_TO_MONTHLY` (pay frequencies). -/
def payFreqToMonthly : PayFrequency → Rat
  | .weekly => 52 / 12
  | .biweekly => 26 / 12
  | .semimonthly => 2
  | .monthly => 1

/-- `FREQ_TO_MONTHLY` (expense frequencies). -/
def expenseFreqToMonthly : ExpenseFrequency → Rat
  | .weekly => 52 / 12
  | .biweekly => 26 / 12
  | .monthly => 1
  | .quarterly => 1 / 3
  | .yearly => 1 / 12

/-- Floor of a rational in executable form: `q.num / q.den` with euclidean
integer division (the denominator is positive, so this is the floor). -/
def ratFloor (x : Rat) : Int := x.num / (x.den : Int)

/-- `Math.ceil` on an exact rational, as `-⌊-x⌋` with the executable
floor. -/
def ratCeil (x : Rat) : Int := -ratFloor (-x)

/-- `Math.round(x * 100) / 100` (JS `Math.round x` is `⌊x + 1/2⌋`). -/
def round2 (x : Rat) : Rat := (ratFloor (x * 100 + 1 / 2) : Rat) / 100

/-! ## Pay-date generation -/

/-- `getSemiMonthlyPayDaysForMonth`: the month's two pay days, clamped to the
month's last day, weekend-adjusted and sorted ascending (JS `sort` on two
elements). -/
def getSemiMonthlyPayDaysForMonth (year month : Int)
    (config : SemiMonthlyConfig) (weekendHandling : WeekendHandling) :
    List Int :=
  let firstDayNum := min config.firstPayDay (lastDayOfMonth year month)
  let secondDayNum := min config.secondPayDay (lastDayOfMonth year month)
  let a := adjustForWeekend (daysFromCivil year month firstDayNum) weekendHandling
  let b := adjustForWeekend (daysFromCivil year month secondDayNum) weekendHandling
  if a ≤ b then [a, b] else [b, a]

/-- `getMonthlyPayDayForMonth`. -/
def getMonthlyPayDayForMonth (year month : Int) (config : MonthlyConfig)
    (weekendHandling : WeekendHandling) : Int :=
  adjustForWeekend
    (daysFromCivil year month (min config.payDay (lastDayOfMonth year month)))
    weekendHandling

/-- `currentMonth++; if (currentMonth > 11) { currentMonth = 0; currentYear++ }`. -/
def nextMonthStep (y m : Int) : Int × Int :=
  if 11 < m + 1 then (y + 1, 0) else (y, m + 1)

/-- The `while (dates.length < maxCount)` month loop of the semi-monthly
branch of `generatePayDates`, with fuel.  (`maxCount + 4` months always
suffice for day-of-month configurations ≥ 1; proved below.) -/
def semiMonthlyLoop (smc : SemiMonthlyConfig) (wh : WeekendHandling)
    (startDate : Int) (maxCount : Nat) :
    Nat → Int → Int → List Int → List Int
  | 0, _, _, dates => dates
  | fuel + 1, y, m, dates =>
      if dates.length < maxCount then
        semiMonthlyLoop smc wh startDate maxCount fuel (nextMonthStep y m).1
          (nextMonthStep y m).2
          ((getSemiMonthlyPayDaysForMonth y m smc wh).foldl
            (fun ds payDay =>
              if startDate ≤ payDay ∧ ds.length < maxCount then ds ++ [payDay]
              else ds) dates)
      else dates

/-- The month loop of the monthly branch of `generatePayDates`. -/
def monthlyLoop (mc : MonthlyConfig) (wh : WeekendHandling)
    (startDate : Int) (maxCount : Nat) :
    Nat → Int → Int → List Int → List Int
  | 0, _, _, dates => dates
  | fuel + 1, y, m, dates =>
      if dates.length < maxCount then
        monthlyLoop mc wh startDate maxCount fuel (nextMonthStep y m).1
          (nextMonthStep y m).2
          (if startDate ≤ getMonthlyPayDayForMonth y m mc wh then
            dates ++ [getMonthlyPayDayForMonth y m mc wh]
          else dates)
      else dates

/-- The fixed-interval loop for weekly/bi-weekly pay: emit the
weekend-adjusted current date, then step by 7/14 days. -/
def fixedIntervalDates (wh : WeekendHandling) (step : Int) :
    Nat → Int → List Int
  | 0, _ => []
  | n + 1, currentDate =>
      adjustForWeekend currentDate wh ::
        fixedIntervalDates wh step n (currentDate + step)

/-- `generatePayDates` (`calculations.ts`). -/
def generatePayDates (config : BudgetConfig) (maxCount : Nat) : List Int :=
  let startDate := config.nextPayDate
  match config.paycheckFrequency with
  | .semimonthly =>
      semiMonthlyLoop config.semiMonthlyConfig config.weekendHandling startDate
        maxCount (maxCount + 4) (dayNumberToYmd startDate).y
        (dayNumberToYmd startDate).m []
  | .monthly =>
      monthlyLoop config.monthlyConfig config.weekendHandling startDate
        maxCount (maxCount + 4) (dayNumberToYmd startDate).y
        (dayNumberToYmd startDate).m []
  | .weekly => fixedIntervalDates config.weekendHandling 7 maxCount startDate
  | .biweekly => fixedIntervalDates config.weekendHandling 14 maxCount startDate

/-! ## Expense occurrences -/

/-- `adjustDayForMonth`. -/
def adjustDayForMonth (year month originalDay : Int) : Int :=
  min originalDay (lastDayOfMonth year month)

/-- date-fns `addYears(d, k)` is `addMonths(d, 12k)`. -/
def addYearsDN (d : Int) (k : Int) : Int := addMonthsDN d (12 * k)

/-- `getNextOccurrence`: the next occurrence after `currentDate` for the
given frequency; month-based frequencies move the month and re-clamp
`originalDayOfMonth` into it. -/
def getNextOccurrence (currentDate : Int) (frequency : ExpenseFrequency)
    (originalDayOfMonth : Int) : Int :=
  match frequency with
  | .weekly => currentDate + 7
  | .biweekly => currentDate + 14
  | .monthly =>
      daysFromCivil (dayNumberToYmd (addMonthsDN currentDate 1)).y
        (dayNumberToYmd (addMonthsDN currentDate 1)).m
        (adjustDayForMonth (dayNumberToYmd (addMonthsDN currentDate 1)).y
          (dayNumberToYmd (addMonthsDN currentDate 1)).m originalDayOfMonth)
  | .quarterly =>
      daysFromCivil (dayNumberToYmd (addMonthsDN currentDate 3)).y
        (dayNumberToYmd (addMonthsDN currentDate 3)).m
        (adjustDayForMonth (dayNumberToYmd (addMonthsDN currentDate 3)).y
          (dayNumberToYmd (addMonthsDN currentDate 3)).m originalDayOfMonth)
  | .yearly =>
      daysFromCivil (dayNumberToYmd (addYearsDN currentDate 1)).y
        (dayNumberToYmd (addYearsDN currentDate 1)).m
        (adjustDayForMonth (dayNumberToYmd (addYearsDN currentDate 1)).y
          (dayNumberToYmd (addYearsDN currentDate 1)).m originalDayOfMonth)

/-- The `while (isBefore(current, start))` loop of
`getFirstOccurrenceOnOrAfter`; the inlined switch of the source is the body
of `getNextOccurrence`. -/
def firstOccurrenceLoop (frequency : ExpenseFrequency) (originalDay : Int)
    (start : Int) : Nat → Int → Int
  | 0, current => current
  | fuel + 1, current =>
      if current < start then
        firstOccurrenceLoop frequency originalDay start fuel
          (getNextOccurrence current frequency originalDay)
      else current

/-- `getFirstOccurrenceOnOrAfter`.  Every advance moves forward at least one
day, so `(start - anchor) + 1` fuel always suffices (proved below). -/
def getFirstOccurrenceOnOrAfter (expense : RecurringExpense)
    (startDate : Int) : Int :=
  let anchorDate := expense.nextDueDate
  if ¬ anchorDate < startDate then anchorDate
  else
    firstOccurrenceLoop expense.frequency (dayNumberToYmd anchorDate).d
      startDate ((startDate - anchorDate).toNat + 1) anchorDate

/-- The `while (!isAfter(currentDate, end))` emission loop of
`generateExpenseOccurrences`. -/
def occurrenceEmitLoop (expense : RecurringExpense) (originalDay : Int)
    (rangeEnd : Int) : Nat → Int → List ExpenseOccurrence
  | 0, _ => []
  | fuel + 1, currentDate =>
      if ¬ rangeEnd < currentDate then
        ⟨expense.id, expense.name, expense.amount, currentDate⟩ ::
          occurrenceEmitLoop expense originalDay rangeEnd fuel
            (getNextOccurrence currentDate expense.frequency originalDay)
      else []

/-- Stable insertion of `a` into a list sorted by the boolean comparator
`le`: `a` goes before the first element `b` with `le a b`. -/
def sortedInsert {α : Type} (le : α → α → Bool) (a : α) : List α → List α
  | [] => [a]
  | b :: l => if le a b then a :: b :: l else b :: sortedInsert le a l

/-- JS `Array.prototype.sort` with a comparator: a stable sort, embedded as
structural insertion sort (the ECMAScript spec requires stability, not a
particular algorithm). -/
def stableSort {α : Type} (le : α → α → Bool) : List α → List α
  | [] => []
  | a :: l => sortedInsert le a (stableSort le l)

/-- `generateExpenseOccurrences`: all occurrences of all expenses in
`[rangeStart, rangeEnd]`, sorted by date then name.  (`localeCompare` on
names is modelled by code-point order; JS `sort` is stable.) -/
def generateExpenseOccurrences (expenses : List RecurringExpense)
    (rangeStart rangeEnd : Int) : List ExpenseOccurrence :=
  stableSort
    (fun a b =>
      if a.date = b.date then decide (a.name ≤ b.name)
      else decide (a.date ≤ b.date))
    (expenses.foldl
      (fun acc expense =>
        acc ++ occurrenceEmitLoop expense (dayNumberToYmd expense.nextDueDate).d
          rangeEnd
          ((rangeEnd - getFirstOccurrenceOnOrAfter expense rangeStart).toNat + 1)
          (getFirstOccurrenceOnOrAfter expense rangeStart)) [])

/-- `getExpensesBetweenDates`: occurrences with
`periodStart ≤ date ≤ periodEnd`. -/
def getExpensesBetweenDates (occurrences : List ExpenseOccurrence)
    (periodStart periodEnd : Int) : List ExpenseOccurrence :=
  occurrences.filter (fun occ =>
    decide (periodStart ≤ occ.date) && decide (occ.date ≤ periodEnd))

/-- `.reduce((sum, e) => sum + e.amount, 0)` over occurrences. -/
def sumOccurrenceAmounts (l : List ExpenseOccurrence) : Rat :=
  l.foldl (fun sum e => sum + e.amount) 0

/-- `.reduce((sum, t) => sum + t.amount, 0)` over ad-hoc transactions. -/
def sumAdHocAmounts (l : List AdHocTransaction) : Rat :=
  l.foldl (fun sum t => sum + t.amount) 0

/-! ## The projection engine (`generateProjection`) -/

/-- `maxPeriods` — the absolute cap of `generateProjection`. -/
def maxPeriods : Nat := 260

/-- The future pay dates used by `generateProjection`: all generated dates
on or after `today`. -/
def projFuturePayDates (config : BudgetConfig) (today : Int) : List Int :=
  (generatePayDates config maxPeriods).filter (fun date => decide (today ≤ date))

/-- Period 0's start: `budgetStartDate ?? currentBalanceAsOf ?? today`. -/
def projPeriod0Start (config : BudgetConfig) (today : Int) : Int :=
  match config.budgetStartDate with
  | some d => d
  | Option.none =>
      match config.currentBalanceAsOf with
      | some d => d
      | Option.none => today

/-- All expense occurrences for the whole projection range
(`period0Start` to one month past the last pay date). -/
def projOccurrences (config : BudgetConfig) (today : Int) :
    List ExpenseOccurrence :=
  generateExpenseOccurrences config.recurringExpenses
    (projPeriod0Start config today)
    (addMonthsDN ((projFuturePayDates config today).getLastD 0) 1)

/-- `baselineOverride ?? config.baselineSpendPerPeriod`. -/
def effectiveBaseline (config : BudgetConfig)
    (baselineOverride : Option Rat) : Rat :=
  baselineOverride.getD config.baselineSpendPerPeriod

/-- Ad-hoc transactions tagged to a period number. -/
def periodAdHocsFor (config : BudgetConfig) (periodNumber : Nat) :
    List AdHocTransaction :=
  config.adHocTransactions.filter (fun t => t.periodNumber == periodNumber)

/-- The period-0 (partial period) entry, when `daysUntilNextPay > 0`. -/
def projPeriod0Entry (config : BudgetConfig) (baselineOverride : Option Rat)
    (today : Int) : Option ProjectionEntry :=
  match projFuturePayDates config today with
  | [] => Option.none
  | nextPayDate :: _ =>
      if 0 < nextPayDate - projPeriod0Start config today then
        let partialPeriodExpenses := getExpensesBetweenDates
          (projOccurrences config today) (projPeriod0Start config today)
          (nextPayDate - 1)
        let adHocs := periodAdHocsFor config 0
        let adHocIncome := sumAdHocAmounts (adHocs.filter (fun t => t.isIncome))
        let adHocExpense := sumAdHocAmounts (adHocs.filter (fun t => !t.isIncome))
        let balanceAfterIncome := config.currentBalance + adHocIncome
        let balanceAfterExpenses := balanceAfterIncome -
          sumOccurrenceAmounts partialPeriodExpenses - adHocExpense
        some
          { date := today
            periodNumber := 0
            income := 0
            expenses := sumOccurrenceAmounts partialPeriodExpenses
            expenseDetails := partialPeriodExpenses
            adHocIncome := adHocIncome
            adHocExpenses := adHocExpense
            adHocDetails := adHocs
            baselineSpend := effectiveBaseline config baselineOverride
            balanceAfterIncome := balanceAfterIncome
            balanceAfterExpenses := balanceAfterExpenses
            balanceAfterBaseline := balanceAfterExpenses -
              effectiveBaseline config baselineOverride }
      else Option.none

/-- Start of the window of the full period at index `i` (period `i + 1`):
its own pay date. -/
def periodWindowStart (pays : List Int) (i : Nat) : Int := pays.getD i 0

/-- End of the window of the full period at index `i`: the day before the
next pay date, or one month past its own pay date for the last period. -/
def periodWindowEnd (pays : List Int) (i : Nat) : Int :=
  if i + 1 < pays.length then pays.getD (i + 1) 0 - 1
  else addMonthsDN (pays.getD i 0) 1

/-- The projection entry of the full period at index `i` (period `i + 1`),
given the running `balanceAfterBaseline` of the previous period. -/
def mkPeriodEntry (config : BudgetConfig) (baselineOverride : Option Rat)
    (pays : List Int) (allOcc : List ExpenseOccurrence) (i : Nat)
    (bal : Rat) : ProjectionEntry :=
  let periodExpenses := getExpensesBetweenDates allOcc
    (periodWindowStart pays i) (periodWindowEnd pays i)
  let periodAdHocs := periodAdHocsFor config (i + 1)
  let adHocIncomeTotal := sumAdHocAmounts (periodAdHocs.filter (fun t => t.isIncome))
  let adHocExpenseTotal := sumAdHocAmounts (periodAdHocs.filter (fun t => !t.isIncome))
  let balanceAfterIncome := bal + config.paycheckAmount + adHocIncomeTotal
  let balanceAfterExpenses := balanceAfterIncome -
    (sumOccurrenceAmounts periodExpenses + adHocExpenseTotal)
  { date := pays.getD i 0
    periodNumber := i + 1
    income := config.paycheckAmount
    expenses := sumOccurrenceAmounts periodExpenses
    expenseDetails := periodExpenses
    adHocIncome := adHocIncomeTotal
    adHocExpenses := adHocExpenseTotal
    adHocDetails := periodAdHocs
    baselineSpend := effectiveBaseline config baselineOverride
    balanceAfterIncome := balanceAfterIncome
    balanceAfterExpenses := balanceAfterExpenses
    balanceAfterBaseline := balanceAfterExpenses -
      effectiveBaseline config baselineOverride }

/-- `Math.ceil(FREQ_TO_MONTHLY[frequency] * 3)` — the number of extra
periods emitted after the goal is reached. -/
def extraPeriodsFor (f : PayFrequency) : Nat :=
  (ratCeil (payFreqToMonthly f * 3)).toNat

/-- The `for` loop over full periods in `generateProjection`, with its
goal-extension break.  `i` is the loop index, `bal` the running
`balanceAfterBaseline`, `goalReachedPeriod` the index of the first
goal crossing (index 0 doubles for a period-0 crossing). -/
def projLoop (config : BudgetConfig) (baselineOverride : Option Rat)
    (pays : List Int) (allOcc : List ExpenseOccurrence) :
    Nat → Nat → Rat → Option Nat → List ProjectionEntry
  | 0, _, _, _ => []
  | fuel + 1, i, bal, goalReachedPeriod =>
      if i < pays.length then
        let e := mkPeriodEntry config baselineOverride pays allOcc i bal
        match
          (match goalReachedPeriod with
            | Option.none =>
                if config.savingsGoal ≤ e.balanceAfterBaseline then some i
                else Option.none
            | some g => some g) with
        | some g =>
            if g + extraPeriodsFor config.paycheckFrequency ≤ i then [e]
            else
              e :: projLoop config baselineOverride pays allOcc fuel (i + 1)
                e.balanceAfterBaseline (some g)
        | Option.none =>
            e :: projLoop config baselineOverride pays allOcc fuel (i + 1)
              e.balanceAfterBaseline Option.none
      else []

/-- Balance carried into the first full period: period 0's
`balanceAfterBaseline` when period 0 was emitted, else `currentBalance`. -/
def projInitBalance (config : BudgetConfig) (baselineOverride : Option Rat)
    (today : Int) : Rat :=
  match projPeriod0Entry config baselineOverride today with
  | some e => e.balanceAfterBaseline
  | Option.none => config.currentBalance

/-- `goalReachedPeriod` after period 0 (0 when period 0 already crossed the
goal). -/
def projInitGoal (config : BudgetConfig) (baselineOverride : Option Rat)
    (today : Int) : Option Nat :=
  match projPeriod0Entry config baselineOverride today with
  | some e =>
      if config.savingsGoal ≤ e.balanceAfterBaseline then some 0
      else Option.none
  | Option.none => Option.none

/-- `generateProjection` (`calculations.ts`), parametrised by `today`
(`startOfDay(new Date())` in the source). -/
def generateProjection (config : BudgetConfig)
    (baselineOverride : Option Rat) (today : Int) : List ProjectionEntry :=
  if (projFuturePayDates config today).isEmpty then []
  else
    (projPeriod0Entry config baselineOverride today).toList ++
      projLoop config baselineOverride (projFuturePayDates config today)
        (projOccurrences config today) (projFuturePayDates config today).length
        0 (projInitBalance config baselineOverride today)
        (projInitGoal config baselineOverride today)

/-! ## Goal dates (`calculateGoalDates`) -/

/-- Mutable scan state of the `for` loop of `calculateGoalDates`. -/
structure GoalScanState where
  dateBeforeExpenses : Option Int
  dateAfterExpenses : Option Int
  dateAfterBaseline : Option Int
  periodsToGoal : Nat
  deriving DecidableEq

/-- One non-period-0 step of the scan of `calculateGoalDates`.  The source
mutates the four accumulators with three sequential `if` statements; since
each `if` reads and writes disjoint fields, the step is equivalently this
simultaneous update. -/
def goalScanStep (goal : Rat) (entry : ProjectionEntry)
    (s : GoalScanState) : GoalScanState :=
  { dateBeforeExpenses :=
      if s.dateBeforeExpenses = Option.none ∧
          goal ≤ entry.balanceAfterIncome then some entry.date
      else s.dateBeforeExpenses
    dateAfterExpenses :=
      if s.dateAfterExpenses = Option.none ∧
          goal ≤ entry.balanceAfterExpenses then some entry.date
      else s.dateAfterExpenses
    dateAfterBaseline :=
      if s.dateAfterBaseline = Option.none ∧
          goal ≤ entry.balanceAfterBaseline then some entry.date
      else s.dateAfterBaseline
    periodsToGoal :=
      if s.dateAfterBaseline = Option.none ∧
          goal ≤ entry.balanceAfterBaseline then entry.periodNumber
      else s.periodsToGoal }

/-- The scan loop of `calculateGoalDates`: period 0 is skipped; each track
records the date of its first crossing, `periodsToGoal` comes with the
after-baseline track. -/
def goalScan (goal : Rat) :
    List ProjectionEntry → GoalScanState → GoalScanState
  | [], s => s
  | entry :: rest, s =>
      if entry.periodNumber = 0 then goalScan goal rest s
      else goalScan goal rest (goalScanStep goal entry s)

/-- `calculateGoalDates`, parametrised by `today` (`new Date()` in the
source). -/
def calculateGoalDates (config : BudgetConfig)
    (projection : List ProjectionEntry) (today : Int) : GoalProjection :=
  if config.savingsGoal ≤ 0 then
    { dateBeforeExpenses := Option.none, dateAfterExpenses := Option.none,
      dateAfterBaseline := Option.none, periodsToGoal := 0, daysToGoal := 0 }
  else
    let s := goalScan config.savingsGoal projection
      { dateBeforeExpenses := Option.none, dateAfterExpenses := Option.none,
        dateAfterBaseline := Option.none, periodsToGoal := 0 }
    { dateBeforeExpenses := s.dateBeforeExpenses
      dateAfterExpenses := s.dateAfterExpenses
      dateAfterBaseline := s.dateAfterBaseline
      periodsToGoal := s.periodsToGoal
      daysToGoal :=
        match s.dateAfterBaseline with
        | some d => d - today
        | Option.none => -1 }

/-! ## Baseline average, transitions, reconciliation -/

/-- Return type of `calculateAverageBaseline`. -/
structure BaselineAverage where
  average : Rat
  count : Nat
  deriving DecidableEq

/-- JS `array.slice(-n)`.  Note `slice(-0)` is `slice(0)`: the whole
array, not the empty one. -/
def jsSliceLast (l : List PeriodSpendEntry) (n : Nat) : List PeriodSpendEntry :=
  if n = 0 then l else l.drop (l.length - n)

/-- `calculateAverageBaseline`: average of the most recent `periodsToUse`
true spends, floored at 0, rounded to 2 decimals.  (The source's `isNaN`
filter cannot fire over `Rat` and is dropped.) -/
def calculateAverageBaseline (periodSpendHistory : List PeriodSpendEntry)
    (periodsToUse : Nat) : Option BaselineAverage :=
  if periodSpendHistory.isEmpty then Option.none
  else
    let validSpends := (jsSliceLast periodSpendHistory periodsToUse).map
      (fun p => max 0 p.trueSpend)
    if validSpends.isEmpty then Option.none
    else
      some
        { average := round2
            (validSpends.foldl (fun sum s => sum + s) 0 /
              (validSpends.length : Rat))
          count := validSpends.length }

/-- Return type of `detectPeriodTransition`. -/
structure TransitionDetection where
  transitioned : Bool
  passedPayDate : Option Int
  deriving DecidableEq

/-- `detectPeriodTransition`: a transition happened iff `nextPayDate` is
strictly before today. -/
def detectPeriodTransition (config : BudgetConfig) (today : Int) :
    TransitionDetection :=
  if config.nextPayDate < today then
    { transitioned := true, passedPayDate := some config.nextPayDate }
  else
    { transitioned := false, passedPayDate := Option.none }

/-- Return type of `calculateTrueSpend`. -/
structure TrueSpendResult where
  trueSpend : Rat
  expectedEnding : Rat
  deriving DecidableEq

/-- `calculateTrueSpend`. -/
def calculateTrueSpend (startingBalance income expenses adHocIncome
    adHocExpenses newStartingBalance : Rat) : TrueSpendResult :=
  { trueSpend := round2 (startingBalance + income - expenses + adHocIncome -
      adHocExpenses - newStartingBalance)
    expectedEnding := round2 (startingBalance + income - expenses +
      adHocIncome - adHocExpenses) }

/-- Return type of `handlePeriodTransition`. -/
structure TransitionResult where
  transitioned : Bool
  config : BudgetConfig
  newBalance : Rat
  trueSpend : Rat
  deriving DecidableEq

/-- `projection.find(p => p.periodNumber === 0) ?? projection[0]` — the
period whose projected ending balance closes the transition. -/
def currentPeriodOf (projection : List ProjectionEntry) :
    Option ProjectionEntry :=
  match projection.find? (fun p => p.periodNumber == 0) with
  | some p => some p
  | Option.none => projection.head?

/-- The "user has not updated the balance" path of `handlePeriodTransition`:
auto-set the balance to the closed period's projected `balanceAfterBaseline`,
record a history entry (with `trueSpend: 0` hardcoded) when a snapshot
exists, and prune history entries older than the retention window.
(`transitionHistoryRetentionDays ?? 7` is the identity on the non-optional
field.) -/
def handleAutoTransition (config : BudgetConfig) (today passedPayDate : Int)
    (projection : List ProjectionEntry) : Option TransitionResult :=
  match currentPeriodOf projection with
  | Option.none => Option.none
  | some currentPeriod =>
      let newBalance := currentPeriod.balanceAfterBaseline
      let withRecord : Rat × List PeriodSpendEntry :=
        match config.periodStartSnapshot with
        | some snapshot =>
            (((calculateTrueSpend snapshot.balance currentPeriod.income
                currentPeriod.expenses currentPeriod.adHocIncome
                currentPeriod.adHocExpenses newBalance).trueSpend : Rat),
              config.periodSpendHistory ++
                [{ periodEndDate := passedPayDate
                   startingBalance := snapshot.balance
                   expectedEnding := (calculateTrueSpend snapshot.balance
                     currentPeriod.income currentPeriod.expenses
                     currentPeriod.adHocIncome currentPeriod.adHocExpenses
                     newBalance).expectedEnding
                   actualEnding := newBalance
                   trueSpend := 0 }])
        | Option.none => ((0 : Rat), config.periodSpendHistory)
      some
        { transitioned := true
          config :=
            { config with
                currentBalance := newBalance
                currentBalanceAsOf := some today
                periodStartSnapshot :=
                  some { periodStartDate := today, balance := newBalance }
                periodSpendHistory := withRecord.2.filter
                  (fun entry => decide
                    (today - config.transitionHistoryRetentionDays ≤
                      entry.periodEndDate)) }
          newBalance := newBalance
          trueSpend := withRecord.1 }

/-- `handlePeriodTransition` (`calculations.ts`): returns `none` when no
transition is due; otherwise either just refreshes the snapshot (when the
user already updated `currentBalanceAsOf` on/after the passed pay date) or
auto-projects via `handleAutoTransition`. -/
def handlePeriodTransition (config : BudgetConfig) (today : Int)
    (projection : List ProjectionEntry) : Option TransitionResult :=
  match (detectPeriodTransition config today).passedPayDate with
  | Option.none => Option.none
  | some passedPayDate =>
      match config.currentBalanceAsOf with
      | some balanceAsOf =>
          if passedPayDate ≤ balanceAsOf then
            some
              { transitioned := true
                config :=
                  { config with
                      periodStartSnapshot := some ⟨balanceAsOf, config.currentBalance⟩ }
                newBalance := config.currentBalance
                trueSpend := 0 }
          else handleAutoTransition config today passedPayDate projection
      | Option.none => handleAutoTransition config today passedPayDate projection

/-! ## `advancePassedDates` -/

/-- The weekly/bi-weekly `while (isBefore(current, todayStart))` advance
loop (`addWeeks(current, interval)` per step). -/
def weeklyAdvanceLoop (interval todayStart : Int) : Nat → Int → Int
  | 0, current => current
  | fuel + 1, current =>
      if current < todayStart then
        weeklyAdvanceLoop interval todayStart fuel (current + 7 * interval)
      else current

/-- The 3-month scan for the next semi-monthly pay day on/after today
(`outerLoop` with its inner `for`/`break`). -/
def semiMonthlyScan (smc : SemiMonthlyConfig) (wh : WeekendHandling)
    (todayStart : Int) : Nat → Int → Int → Option Int
  | 0, _, _ => Option.none
  | fuel + 1, y, m =>
      match (getSemiMonthlyPayDaysForMonth y m smc wh).find?
          (fun payDay => decide (todayStart ≤ payDay)) with
      | some payDay => some payDay
      | Option.none =>
          semiMonthlyScan smc wh todayStart fuel (nextMonthStep y m).1
            (nextMonthStep y m).2

/-- The 3-month scan for the next monthly pay day on/after today. -/
def monthlyScan (mc : MonthlyConfig) (wh : WeekendHandling)
    (todayStart : Int) : Nat → Int → Int → Option Int
  | 0, _, _ => Option.none
  | fuel + 1, y, m =>
      if todayStart ≤ getMonthlyPayDayForMonth y m mc wh then
        some (getMonthlyPayDayForMonth y m mc wh)
      else
        monthlyScan mc wh todayStart fuel (nextMonthStep y m).1
          (nextMonthStep y m).2

/-- The per-expense advance guard of `advancePassedDates`: due date in the
past AND (no `currentBalanceAsOf`, or due strictly before it). -/
def advanceExpenseCond (config : BudgetConfig) (todayStart : Int)
    (expense : RecurringExpense) : Bool :=
  decide (expense.nextDueDate < todayStart) &&
    (match config.currentBalanceAsOf with
      | some balanceAsOf => decide (expense.nextDueDate < balanceAsOf)
      | Option.none => true)

/-- The advanced `nextPayDate`, when the pay-date part of
`advancePassedDates` changes it. -/
def advancedPayDate (config : BudgetConfig) (todayStart : Int) : Option Int :=
  if config.nextPayDate < todayStart then
    match config.paycheckFrequency with
    | .weekly =>
        some (weeklyAdvanceLoop 1 todayStart
          ((todayStart - config.nextPayDate).toNat + 1) config.nextPayDate)
    | .biweekly =>
        some (weeklyAdvanceLoop 2 todayStart
          ((todayStart - config.nextPayDate).toNat + 1) config.nextPayDate)
    | .semimonthly =>
        semiMonthlyScan config.semiMonthlyConfig config.weekendHandling
          todayStart 3 (dayNumberToYmd todayStart).y (dayNumberToYmd todayStart).m
    | .monthly =>
        monthlyScan config.monthlyConfig config.weekendHandling todayStart 3
          (dayNumberToYmd todayStart).y (dayNumberToYmd todayStart).m
  else Option.none

/-- `advancePassedDates` (`calculations.ts`): advance a passed
`nextPayDate` and the passed-and-accounted-for expense due dates; `none`
when nothing changed. -/
def advancePassedDates (config : BudgetConfig) (today : Int) :
    Option BudgetConfig :=
  let payUpdate := advancedPayDate config today
  if payUpdate.isSome ||
      config.recurringExpenses.any (advanceExpenseCond config today) then
    some
      { config with
          nextPayDate := payUpdate.getD config.nextPayDate
          recurringExpenses := config.recurringExpenses.map (fun expense =>
            if advanceExpenseCond config today expense then
              { expense with
                  nextDueDate := getFirstOccurrenceOnOrAfter expense today }
            else expense) }
  else Option.none

/-! ## Migration (`src/utils/migration.ts`) -/

/-- `migrateToHistoricalPeriods`.  `generateUUID()` and `new Date()` are
impure; the embedding takes the UUID source (indexed by position) and the
current instant/day as parameters.  `periodConfirmationGraceDays ?? 3` is
the identity on the non-optional field. -/
def migrateToHistoricalPeriods (uuid : Nat → String) (now nowDay : Int)
    (config : BudgetConfig) : BudgetConfig :=
  if 0 < config.periods.length then config
  else if config.periodSpendHistory.length = 0 then
    { config with periods := [], budgetStartDate := config.currentBalanceAsOf }
  else
    let periods : List HistoricalPeriod := config.periodSpendHistory.enum.map
      (fun (p : Nat × PeriodSpendEntry) =>
        { id := uuid p.1
          periodNumber := p.1
          startDate :=
            if p.1 = 0 then config.currentBalanceAsOf.getD p.2.periodEndDate
            else
              (config.periodSpendHistory.getD (p.1 - 1) p.2).periodEndDate + 1
          endDate := p.2.periodEndDate
          startingBalance := p.2.startingBalance
          endingBalance := p.2.actualEnding
          projectedEndingBalance := p.2.expectedEnding
          income := 0
          recurringExpenses := 0
          adHocIncome := 0
          adHocExpenses := 0
          baselineSpend := p.2.trueSpend
          variance := p.2.expectedEnding - p.2.actualEnding
          varianceExplanations :=
            if p.2.expectedEnding - p.2.actualEnding < 0 then
              [{ reason := VarianceReason.baseline_miss
                 amount := abs (p.2.expectedEnding - p.2.actualEnding)
                 description := Option.none
                 affectsBaseline := true }]
            else []
          status := PeriodStatus.completed
          confirmedAt := some now })
    { config with
        periods := periods
        budgetStartDate :=
          some ((periods.head?.map (fun q => q.startDate)).getD
            (config.currentBalanceAsOf.getD nowDay))
        periodConfirmationGraceDays := config.periodConfirmationGraceDays }

/-- `needsMigration`. -/
def needsMigration (config : BudgetConfig) : Bool :=
  decide (0 < config.periodSpendHistory.length) &&
    !decide (0 < config.periods.length)


/-! ## Auxiliary definitions for the verification -/

/-- `DEFAULT_CONFIG` (`types.ts`); the impure default `nextPayDate`
(`new Date()…`) is a parameter. -/
def DEFAULT_CONFIG (todayStr : Int) : BudgetConfig :=
  { currentBalance := 0
    paycheckAmount := 0
    paycheckFrequency := PayFrequency.biweekly
    nextPayDate := todayStr
    weekendHandling := WeekendHandling.before
    semiMonthlyConfig := { firstPayDay := 1, secondPayDay := 15 }
    monthlyConfig := { payDay := 1 }
    recurringExpenses := []
    adHocTransactions := []
    baselineSpendPerPeriod := 0
    savingsGoal := 0
    currentBalanceAsOf := Option.none
    periodStartSnapshot := Option.none
    periodSpendHistory := []
    periodsForBaselineCalc := 8
    useCalculatedBaseline := false
    transitionHistoryRetentionDays := 7
    budgetStartDate := Option.none
    periods := []
    periodConfirmationGraceDays := 3 }

/-- The spec's description of `calculateAverageBaseline`, stated on its own
for comparison with the code: take the most recent `periodsToUse` entries,
floor each `trueSpend` at 0, average, round to 2 decimals; null when there
are no samples. -/
def baselineSpecAverage (history : List PeriodSpendEntry)
    (periodsToUse : Nat) : Option BaselineAverage :=
  let samples := (history.drop (history.length - periodsToUse)).map
    (fun p => max 0 p.trueSpend)
  if samples.isEmpty then Option.none
  else
    some
      { average := round2
          (samples.foldl (fun sum x => sum + x) 0 / (samples.length : Rat))
        count := samples.length }

/-- The trueSpend samples `[-20, 30, 50]` of the spec's baseline-flooring
example (the remaining fields are irrelevant and set to 0). -/
def baselineExampleHistory : List PeriodSpendEntry :=
  [{ periodEndDate := 0, startingBalance := 0, expectedEnding := 0,
     actualEnding := 0, trueSpend := -20 },
   { periodEndDate := 0, startingBalance := 0, expectedEnding := 0,
     actualEnding := 0, trueSpend := 30 },
   { periodEndDate := 0, startingBalance := 0, expectedEnding := 0,
     actualEnding := 0, trueSpend := 50 }]

/-- A completed historical period used by concrete instances. -/
def sampleHistoricalPeriod : HistoricalPeriod :=
  { id := "p0", periodNumber := 0, startDate := 0, endDate := 13,
    startingBalance := 100, endingBalance := 90,
    projectedEndingBalance := 95, income := 0, recurringExpenses := 0,
    adHocIncome := 0, adHocExpenses := 0, baselineSpend := 5,
    variance := 5, varianceExplanations := [],
    status := PeriodStatus.completed, confirmedAt := Option.none }

/-- A migrated configuration (non-empty `periods`). -/
def sampleMigratedConfig : BudgetConfig :=
  { DEFAULT_CONFIG 0 with periods := [sampleHistoricalPeriod] }

/-- Linear month index (`12y + m`) of a day number. -/
def monthIndexOf (d : Int) : Int :=
  12 * (dayNumberToYmd d).y + (dayNumberToYmd d).m

/-- Day of month of a day number. -/
def dayOfMonthOf (d : Int) : Int := (dayNumberToYmd d).d

/-- Iterated `getNextOccurrence` (the spec's `advanceByFrequency` applied
repeatedly). -/
def iterateOccurrence (frequency : ExpenseFrequency) (originalDay : Int) :
    Nat → Int → Int
  | 0, d => d
  | k + 1, d =>
      iterateOccurrence frequency originalDay k
        (getNextOccurrence d frequency originalDay)


/-- Concrete configuration for the transition instances: pay date passed
(day 0), user has not updated the balance, snapshot balance 100. -/
def c6config : BudgetConfig :=
  { DEFAULT_CONFIG 0 with
      nextPayDate := 0
      currentBalance := 100
      periodStartSnapshot := some { periodStartDate := 0, balance := 100 } }

/-- Concrete period-0 projection entry closing at balance 80. -/
def c6entry : ProjectionEntry :=
  { date := 1, periodNumber := 0, income := 0, expenses := 0,
    expenseDetails := [], adHocIncome := 0, adHocExpenses := 0,
    adHocDetails := [], baselineSpend := 0, balanceAfterIncome := 100,
    balanceAfterExpenses := 100, balanceAfterBaseline := 80 }


/-- The auto-transition result at `c6config`/`c6entry` (used to instantiate
the retention theorem). -/
def c10result : TransitionResult :=
  { transitioned := true
    config :=
      { c6config with
          currentBalance := 80
          currentBalanceAsOf := some 1
          periodStartSnapshot := some { periodStartDate := 1, balance := 80 }
          periodSpendHistory :=
            [{ periodEndDate := 0, startingBalance := 100,
               expectedEnding := 100, actualEnding := 80, trueSpend := 0 }] }
    newBalance := 80
    trueSpend := 20 }

/-- A weekly expense anchored at day 0. -/
def c5expense : RecurringExpense :=
  { id := "e1", name := "rent", amount := 50,
    frequency := ExpenseFrequency.weekly, nextDueDate := 0 }

/-- Expense due exactly on `currentBalanceAsOf` (day 0) and in the past:
the strict guard leaves it unchanged. -/
def c5config : BudgetConfig :=
  { DEFAULT_CONFIG 0 with
      nextPayDate := 10
      currentBalanceAsOf := some 0
      recurringExpenses := [c5expense] }

/-- Expense due strictly before `currentBalanceAsOf` (day 5): advanced. -/
def c5config2 : BudgetConfig :=
  { DEFAULT_CONFIG 0 with
      nextPayDate := 10
      currentBalanceAsOf := some 5
      recurringExpenses := [c5expense] }

/-- `advancePassedDates c5config2 9`: the weekly expense jumps to day 14. -/
def c5advanced : BudgetConfig :=
  { c5config2 with
      recurringExpenses := [{ c5expense with nextDueDate := 14 }] }


/-- The running `balanceAfterBaseline` along the full-period loop, started
at loop index `i` with balance `bal`: `projBalFrom … i bal k` is the
balance after `k` further periods. -/
def projBalFrom (config : BudgetConfig) (baselineOverride : Option Rat)
    (pays : List Int) (allOcc : List ExpenseOccurrence) (i : Nat)
    (bal : Rat) : Nat → Rat
  | 0 => bal
  | k + 1 =>
      (mkPeriodEntry config baselineOverride pays allOcc (i + k)
        (projBalFrom config baselineOverride pays allOcc i bal k)).balanceAfterBaseline

/-- The after-baseline track of the whole projection:
`projTrackBAB … k` is the balance carried into the full period at loop
index `k` (so the entry of period `k + 1` has
`balanceAfterBaseline = projTrackBAB … (k + 1)`). -/
def projTrackBAB (config : BudgetConfig) (baselineOverride : Option Rat)
    (today : Int) : Nat → Rat :=
  projBalFrom config baselineOverride (projFuturePayDates config today)
    (projOccurrences config today) 0
    (projInitBalance config baselineOverride today)


/-- A minimal bi-weekly configuration for instantiating the projection
recurrence: balance 5, paycheck 10, no expenses, zero goal. -/
def c1cfg : BudgetConfig :=
  { DEFAULT_CONFIG 0 with currentBalance := 5, paycheckAmount := 10 }

/-- The first emitted projection entry of `c1cfg` at day 0 (period 1). -/
def c1entry : ProjectionEntry :=
  { date := 0, periodNumber := 1, income := 10, expenses := 0,
    expenseDetails := [], adHocIncome := 0, adHocExpenses := 0,
    adHocDetails := [], baselineSpend := 0, balanceAfterIncome := 15,
    balanceAfterExpenses := 15, balanceAfterBaseline := 15 }


/-- A bi-weekly configuration whose period-0 entry already crosses the
savings goal: balance 100, goal 50, first pay date at day 1. -/
def c3cfg : BudgetConfig :=
  { DEFAULT_CONFIG 0 with
      currentBalance := 100, savingsGoal := 50, nextPayDate := 1 }

/-- The period-0 entry of `c3cfg` at day 0. -/
def c3p0entry : ProjectionEntry :=
  { date := 0, periodNumber := 0, income := 0, expenses := 0,
    expenseDetails := [], adHocIncome := 0, adHocExpenses := 0,
    adHocDetails := [], baselineSpend := 0, balanceAfterIncome := 100,
    balanceAfterExpenses := 100, balanceAfterBaseline := 100 }


/-- A weekly configuration whose next pay date 2024-06-01 is a Saturday,
with the default 'before' weekend handling. -/
def c2cfg : BudgetConfig :=
  { DEFAULT_CONFIG (daysFromCivil 2024 5 1) with
      paycheckFrequency := PayFrequency.weekly }

/-! ## Properties of the calendar layer -/

theorem daysInMonth_pos (y m : Int) : 1 ≤ daysInMonth y m := by
  unfold daysInMonth
  repeat' split
  all_goals omega

theorem daysInMonth_le (y m : Int) : daysInMonth y m ≤ 31 := by
  unfold daysInMonth
  repeat' split
  all_goals omega

theorem leaps_succ (y : Int) :
    leaps y - leaps (y - 1) = if isLeap y then 1 else 0 := by
  unfold leaps isLeap
  have h4 : y % 4 = 0 ∨ y % 4 ≠ 0 := em _
  split
  · next h =>
      simp only [Bool.or_eq_true, Bool.and_eq_true, beq_iff_eq, bne_iff_ne,
        ne_eq] at h
      omega
  · next h =>
      simp only [Bool.or_eq_true, Bool.and_eq_true, beq_iff_eq, bne_iff_ne,
        ne_eq, not_or, not_and] at h
      omega

theorem jan1_succ (y : Int) : jan1 (y + 1) = jan1 y + yearLen y := by
  have h := leaps_succ y
  have e : y + 1 - 1 = y := by ring
  unfold jan1 yearLen
  rw [e]
  cases hL : isLeap y <;> simp [hL] at h ⊢ <;> omega

theorem yearLen_bounds (y : Int) : 365 ≤ yearLen y ∧ yearLen y ≤ 366 := by
  unfold yearLen; split <;> omega

theorem leapDay_bounds (y : Int) : 0 ≤ leapDay y ∧ leapDay y ≤ 1 := by
  unfold leapDay; split <;> omega

/-- Sum of the twelve month lengths is the year length. -/
theorem monthOffset_last (y : Int) :
    monthOffset y 11 + daysInMonth y 11 = yearLen y := by
  have h := leapDay_bounds y
  unfold monthOffset daysInMonth yearLen leapDay
  norm_num
  cases hL : isLeap y <;> simp [hL]

theorem monthOffset_succ (y m : Int) (h0 : 0 ≤ m) (h1 : m ≤ 10) :
    monthOffset y (m + 1) = monthOffset y m + daysInMonth y m := by
  interval_cases m <;>
    norm_num [monthOffset, daysInMonth, leapDay] <;>
    (try omega) <;>
    cases hL : isLeap y <;> simp [hL] <;> omega

theorem monthOffset_nonneg (y m : Int) (h0 : 0 ≤ m) (h11 : m ≤ 11) :
    0 ≤ monthOffset y m := by
  have h := leapDay_bounds y
  interval_cases m <;> norm_num [monthOffset, leapDay] <;>
    cases hL : isLeap y <;> simp [hL]

theorem monthOffset_add_dim_le (y m : Int) (h0 : 0 ≤ m) (h11 : m ≤ 11) :
    monthOffset y m + daysInMonth y m ≤ yearLen y := by
  interval_cases m <;>
    norm_num [monthOffset, daysInMonth, leapDay, yearLen] <;>
    cases hL : isLeap y <;> simp [hL] <;> omega

theorem daysInMonth_ge28 (y m : Int) : 28 ≤ daysInMonth y m := by
  unfold daysInMonth
  repeat' split
  all_goals first | omega | (split <;> omega)

theorem dimM_bounds (M : Int) : 28 ≤ dimM M ∧ dimM M ≤ 31 :=
  ⟨daysInMonth_ge28 _ _, daysInMonth_le _ _⟩

theorem daysFromCivil_linear (y m d : Int) :
    daysFromCivil y m d = firstOfM (12 * y + m) + (d - 1) := by
  unfold firstOfM
  unfold daysFromCivil
  norm_num

theorem firstOfM_succ (M : Int) : firstOfM (M + 1) = firstOfM M + dimM M := by
  have hmm : 0 ≤ M % 12 ∧ M % 12 < 12 := ⟨Int.emod_nonneg M (by norm_num),
    Int.emod_lt_of_pos M (by norm_num)⟩
  unfold firstOfM dimM daysFromCivil
  simp only [Int.mul_zero, Int.zero_add]
  by_cases h : M % 12 ≤ 10
  · have hq : (M + 1) / 12 = M / 12 := by omega
    have hr : (M + 1) % 12 = M % 12 + 1 := by omega
    rw [hq, hr, monthOffset_succ _ _ hmm.1 h]
    ring
  · have h11 : M % 12 = 11 := by omega
    have hq : (M + 1) / 12 = M / 12 + 1 := by omega
    have hr : (M + 1) % 12 = 0 := by omega
    rw [hq, hr, h11, jan1_succ, ← monthOffset_last (M / 12)]
    have : monthOffset (M / 12 + 1) 0 = 0 := by norm_num [monthOffset]
    rw [this]
    ring

theorem firstOfM_mono_succ (M : Int) :
    firstOfM M + 28 ≤ firstOfM (M + 1) := by
  have := firstOfM_succ M
  have := dimM_bounds M
  omega

theorem firstOfM_le_of_le {M M' : Int} (h : M ≤ M') :
    firstOfM M ≤ firstOfM M' := by
  have h' : ∀ k : Nat, firstOfM M ≤ firstOfM (M + k) := by
    intro k
    induction k with
    | zero => simp
    | succ n ih =>
        have := firstOfM_mono_succ (M + n)
        have e : M + (n + 1 : Nat) = (M + n) + 1 := by push_cast; ring
        rw [e]
        omega
  have e : M' = M + ((M' - M).toNat : Int) := by omega
  rw [e]
  exact h' _

theorem firstOfM_add_ge {M : Int} (k : Nat) :
    firstOfM M + 28 * k ≤ firstOfM (M + k) := by
  induction k with
  | zero => simp
  | succ n ih =>
      have := firstOfM_mono_succ (M + n)
      have e : M + (n + 1 : Nat) = (M + n) + 1 := by push_cast; ring
      rw [e]
      push_cast
      omega

theorem jan1_era (e : Int) : jan1 (1600 + 400 * e) = jan1 1600 + 146097 * e := by
  unfold jan1 leaps
  omega

theorem jan1_growth (a b : Int) (h : a ≤ b) :
    jan1 a + 365 * (b - a) ≤ jan1 b := by
  unfold jan1 leaps
  omega

theorem findYear_spec (f : Nat) :
    ∀ y rem : Int, 0 ≤ rem → rem < jan1 (y + f) - jan1 y →
      jan1 (findYear f y rem).1 + (findYear f y rem).2 = jan1 y + rem ∧
      0 ≤ (findYear f y rem).2 ∧
      (findYear f y rem).2 < yearLen (findYear f y rem).1 := by
  induction f with
  | zero =>
      intro y rem h0 hlt
      simp at hlt
      omega
  | succ n ih =>
      intro y rem h0 hlt
      unfold findYear
      by_cases hstep : rem < yearLen y
      · simp [hstep]
        omega
      · simp [hstep]
        have hj := jan1_succ y
        have hb : rem - yearLen y < jan1 (y + 1 + n) - jan1 (y + 1) := by
          have e : y + ((n : Nat) + 1 : Nat) = y + 1 + (n : Int) := by
            push_cast; ring
          rw [e] at hlt
          omega
        have := ih (y + 1) (rem - yearLen y) (by omega) hb
        omega

theorem findMonth_spec (f : Nat) :
    ∀ y m rem : Int, 0 ≤ rem → 0 ≤ m → m ≤ 11 → 12 ≤ m + f →
      monthOffset y m + rem < yearLen y →
      monthOffset y (findMonth f y m rem).1 + (findMonth f y m rem).2 =
          monthOffset y m + rem ∧
      0 ≤ (findMonth f y m rem).2 ∧
      (findMonth f y m rem).2 <
          daysInMonth y (findMonth f y m rem).1 ∧
      0 ≤ (findMonth f y m rem).1 ∧ (findMonth f y m rem).1 ≤ 11 := by
  induction f with
  | zero =>
      intro y m rem h0 hm0 hm11 hf _
      simp at hf
      omega
  | succ n ih =>
      intro y m rem h0 hm0 hm11 hf hbound
      unfold findMonth
      by_cases hstep : rem < daysInMonth y m
      · simp [hstep]
        omega
      · simp [hstep]
        by_cases h10 : m ≤ 10
        · have hsucc := monthOffset_succ y m hm0 h10
          have := ih y (m + 1) (rem - daysInMonth y m) (by omega) (by omega)
            (by omega) (by omega) (by omega)
          omega
        · have h11 : m = 11 := by omega
          subst h11
          have := monthOffset_last y
          omega

theorem dayNumberToYmd_spec (n : Int) :
    daysFromCivil (dayNumberToYmd n).y (dayNumberToYmd n).m (dayNumberToYmd n).d = n ∧
    0 ≤ (dayNumberToYmd n).m ∧ (dayNumberToYmd n).m ≤ 11 ∧
    1 ≤ (dayNumberToYmd n).d ∧
    (dayNumberToYmd n).d ≤ daysInMonth (dayNumberToYmd n).y (dayNumberToYmd n).m := by
  have hv : dayNumberToYmd n =
      ⟨(findYear 400 (1600 + 400 * ((n - jan1 1600) / 146097))
          ((n - jan1 1600) % 146097)).1,
        (findMonth 12
          (findYear 400 (1600 + 400 * ((n - jan1 1600) / 146097))
            ((n - jan1 1600) % 146097)).1 0
          (findYear 400 (1600 + 400 * ((n - jan1 1600) / 146097))
            ((n - jan1 1600) % 146097)).2).1,
        (findMonth 12
          (findYear 400 (1600 + 400 * ((n - jan1 1600) / 146097))
            ((n - jan1 1600) % 146097)).1 0
          (findYear 400 (1600 + 400 * ((n - jan1 1600) / 146097))
            ((n - jan1 1600) % 146097)).2).2 + 1⟩ := rfl
  rw [hv]
  have hz0 : 0 ≤ (n - jan1 1600) % 146097 := Int.emod_nonneg _ (by norm_num)
  have hzlt : (n - jan1 1600) % 146097 < 146097 :=
    Int.emod_lt_of_pos _ (by norm_num)
  have hdiv : 146097 * ((n - jan1 1600) / 146097) + (n - jan1 1600) % 146097 =
      n - jan1 1600 := by
    have := Int.ediv_add_emod (n - jan1 1600) 146097
    omega
  set era := (n - jan1 1600) / 146097 with hera
  set zz := (n - jan1 1600) % 146097 with hzz
  have hspan : zz < jan1 (1600 + 400 * era + 400) - jan1 (1600 + 400 * era) := by
    have h1 := jan1_era era
    have h2 := jan1_era (era + 1)
    have e : 1600 + 400 * (era + 1) = 1600 + 400 * era + 400 := by ring
    rw [e] at h2
    omega
  have hy := findYear_spec 400 (1600 + 400 * era) zz hz0 (by
    have e : (1600 : Int) + 400 * era + (400 : Nat) = 1600 + 400 * era + 400 := by
      norm_num
    rw [e]
    exact hspan)
  set p := findYear 400 (1600 + 400 * era) zz with hp
  have hmo0 : monthOffset p.1 0 = 0 := by norm_num [monthOffset]
  have hm := findMonth_spec 12 p.1 0 p.2 hy.2.1 (by norm_num) (by norm_num)
    (by norm_num) (by rw [hmo0]; simpa using hy.2.2)
  set q := findMonth 12 p.1 0 p.2 with hq
  rw [hmo0] at hm
  constructor
  · show daysFromCivil p.1 q.1 (q.2 + 1) = n
    have hqm : 0 ≤ q.1 ∧ q.1 ≤ 11 := ⟨hm.2.2.2.1, hm.2.2.2.2⟩
    unfold daysFromCivil
    have hdq : (12 * p.1 + q.1) / 12 = p.1 := by omega
    have hmq : (12 * p.1 + q.1) % 12 = q.1 := by omega
    rw [hdq, hmq]
    have h1 := jan1_era era
    omega
  · exact ⟨hm.2.2.2.1, hm.2.2.2.2, by show 1 ≤ q.2 + 1; omega,
      by show q.2 + 1 ≤ daysInMonth p.1 q.1; omega⟩

/-- `daysFromCivil` is left-inverse to `dayNumberToYmd` on canonical civil
dates. -/
theorem dayNumberToYmd_of_valid (y m d : Int) (hm0 : 0 ≤ m) (hm11 : m ≤ 11)
    (hd1 : 1 ≤ d) (hdm : d ≤ daysInMonth y m) :
    dayNumberToYmd (daysFromCivil y m d) = ⟨y, m, d⟩ := by
  have hspec := dayNumberToYmd_spec (daysFromCivil y m d)
  set v := dayNumberToYmd (daysFromCivil y m d) with hv
  obtain ⟨hs1, hsm0, hsm11, hsd1, hsdm⟩ := hspec
  have hlin1 : daysFromCivil y m d = firstOfM (12 * y + m) + (d - 1) :=
    daysFromCivil_linear y m d
  have hlin2 : daysFromCivil v.y v.m v.d = firstOfM (12 * v.y + v.m) + (v.d - 1) :=
    daysFromCivil_linear v.y v.m v.d
  have hdim1 : dimM (12 * y + m) = daysInMonth y m := by
    unfold dimM
    have hdq : (12 * y + m) / 12 = y := by omega
    have hmq : (12 * y + m) % 12 = m := by omega
    rw [hdq, hmq]
  have hdim2 : dimM (12 * v.y + v.m) = daysInMonth v.y v.m := by
    unfold dimM
    have hdq : (12 * v.y + v.m) / 12 = v.y := by omega
    have hmq : (12 * v.y + v.m) % 12 = v.m := by omega
    rw [hdq, hmq]
  -- both linear months contain the same day number, so they are equal
  have hM : 12 * y + m = 12 * v.y + v.m := by
    by_contra hne
    rcases lt_or_gt_of_ne hne with hlt | hgt
    · have h1 : firstOfM (12 * y + m + 1) ≤ firstOfM (12 * v.y + v.m) :=
        firstOfM_le_of_le (by omega)
      have h2 := firstOfM_succ (12 * y + m)
      omega
    · have h1 : firstOfM (12 * v.y + v.m + 1) ≤ firstOfM (12 * y + m) :=
        firstOfM_le_of_le (by omega)
      have h2 := firstOfM_succ (12 * v.y + v.m)
      omega
  have hym : v.y = y ∧ v.m = m := by omega
  have hd : v.d = d := by
    have h3 := hs1
    rw [hlin2, hlin1, ← hM] at h3
    omega
  rw [← hym.1, ← hym.2, ← hd]

theorem adjustForWeekend_bounds (date : Int) (h : WeekendHandling) :
    date - 2 ≤ adjustForWeekend date h ∧ adjustForWeekend date h ≤ date + 2 := by
  unfold adjustForWeekend
  cases h <;> simp <;> split_ifs <;> omega

theorem adjustForWeekend_before_le (date : Int) :
    adjustForWeekend date WeekendHandling.before ≤ date := by
  simp only [adjustForWeekend]
  split_ifs <;> omega

theorem adjustForWeekend_after_ge (date : Int) :
    date ≤ adjustForWeekend date WeekendHandling.after := by
  simp only [adjustForWeekend]
  split_ifs <;> omega

theorem adjustForWeekend_before_weekday (date : Int) :
    IsWeekday (adjustForWeekend date WeekendHandling.before) := by
  simp only [adjustForWeekend]
  unfold IsWeekday dayOfWeek
  split_ifs <;> omega

theorem adjustForWeekend_after_weekday (date : Int) :
    IsWeekday (adjustForWeekend date WeekendHandling.after) := by
  simp only [adjustForWeekend]
  unfold IsWeekday dayOfWeek
  split_ifs <;> omega

/-- Nothing strictly between `adjustForWeekend d before` and `d` is a
weekday. -/
theorem adjustForWeekend_before_gap (date t : Int)
    (h1 : adjustForWeekend date WeekendHandling.before < t) (h2 : t ≤ date) :
    ¬ IsWeekday t := by
  simp only [adjustForWeekend] at h1
  unfold IsWeekday dayOfWeek at *
  split_ifs at h1 <;> omega

/-- Nothing strictly between `d` and `adjustForWeekend d after` is a
weekday. -/
theorem adjustForWeekend_after_gap (date t : Int)
    (h1 : t < adjustForWeekend date WeekendHandling.after) (h2 : date ≤ t) :
    ¬ IsWeekday t := by
  simp only [adjustForWeekend] at h1
  unfold IsWeekday dayOfWeek at *
  split_ifs at h1 <;> omega

/-- `adjustForWeekend` is monotone in the date for every fixed handling. -/
theorem adjustForWeekend_mono (h : WeekendHandling) {d1 d2 : Int}
    (hle : d1 ≤ d2) :
    adjustForWeekend d1 h ≤ adjustForWeekend d2 h := by
  cases h with
  | none => simpa [adjustForWeekend] using hle
  | before =>
      by_contra hlt
      push_neg at hlt
      have hw := adjustForWeekend_before_weekday d1
      have hb1 := adjustForWeekend_before_le d1
      have := adjustForWeekend_before_gap d2 (adjustForWeekend d1 .before)
        hlt (by omega)
      exact this hw
  | after =>
      by_contra hlt
      push_neg at hlt
      have hw := adjustForWeekend_after_weekday d2
      have hb2 := adjustForWeekend_after_ge d2
      have := adjustForWeekend_after_gap d1 (adjustForWeekend d2 .after)
        hlt (by omega)
      exact this hw

/-! ## C7: calculateAverageBaseline -/

unseal Rat.add Rat.mul Rat.sub Rat.inv in
/-- C7 (amended): for `periodsToUse ≥ 1`, `calculateAverageBaseline` takes
exactly the most recent `periodsToUse` entries, floors each negative
`trueSpend` at 0, averages and rounds to 2 decimals, and returns null when
there are no samples (`baselineSpecAverage` is the spec's description of
this computation); in particular on trueSpends `[-20, 30, 50]` with
`periodsToUse ≥ 3` it returns 26.67 with 3 samples.  (For
`periodsToUse = 0` JS `slice(-0)` makes the code fall back to the whole
history — see the counterexample.) -/
theorem c7_calculateAverageBaseline :
    (∀ (h : List PeriodSpendEntry) (n : Nat), 1 ≤ n →
      calculateAverageBaseline h n = baselineSpecAverage h n) ∧
    (∀ n : Nat, 3 ≤ n →
      calculateAverageBaseline baselineExampleHistory n =
        some { average := 2667 / 100, count := 3 }) := by
  constructor
  · intro h n hn
    have hn0 : ¬ n = 0 := by omega
    unfold calculateAverageBaseline baselineSpecAverage jsSliceLast
    simp only [hn0, if_false]
    by_cases hh : h.isEmpty
    · have he : h = [] := by
        cases h with
        | nil => rfl
        | cons a t => simp [List.isEmpty] at hh
      subst he
      simp
    · simp only [hh, Bool.false_eq_true, if_false]
  · intro n h3
    have e : jsSliceLast baselineExampleHistory n = baselineExampleHistory := by
      have hn0 : ¬ n = 0 := by omega
      have hlen : baselineExampleHistory.length - n = 0 := by
        simp only [baselineExampleHistory, List.length]
        omega
      unfold jsSliceLast
      simp [hn0, hlen]
    unfold calculateAverageBaseline
    rw [e]
    decide

/-- C7 witness: the amended theorem at `periodsToUse = 3` on the example
history. -/
theorem c7_witness :
    calculateAverageBaseline baselineExampleHistory 3 =
      baselineSpecAverage baselineExampleHistory 3 ∧
    calculateAverageBaseline baselineExampleHistory 3 =
      some { average := 2667 / 100, count := 3 } :=
  ⟨(c7_calculateAverageBaseline).1 baselineExampleHistory 3 (by norm_num),
   (c7_calculateAverageBaseline).2 3 (by norm_num)⟩

unseal Rat.add Rat.mul Rat.sub Rat.inv in
/-- C7 counterexample: with `periodsToUse = 0` the code averages the whole
history (JS `slice(-0)` is `slice(0)`), instead of taking the most recent
0 entries and hence returning null as the claim's description requires. -/
theorem c7_counterexample :
    calculateAverageBaseline baselineExampleHistory 0 =
      some { average := 2667 / 100, count := 3 } ∧
    baselineSpecAverage baselineExampleHistory 0 = Option.none := by
  constructor <;> decide

/-! ## C9: migration idempotence -/

/-- C9: `needsMigration` is false once `periods` is non-empty and
`migrateToHistoricalPeriods` returns an already-migrated config unchanged;
migrating twice equals migrating once for every config. -/
theorem c9_migration_idempotent (uuid : Nat → String) (now nowDay : Int)
    (config : BudgetConfig) :
    migrateToHistoricalPeriods uuid now nowDay
        (migrateToHistoricalPeriods uuid now nowDay config) =
      migrateToHistoricalPeriods uuid now nowDay config ∧
    (0 < config.periods.length →
      needsMigration config = false ∧
      migrateToHistoricalPeriods uuid now nowDay config = config) := by
  have hmain : ∀ c : BudgetConfig, 0 < c.periods.length →
      migrateToHistoricalPeriods uuid now nowDay c = c := by
    intro c hc
    unfold migrateToHistoricalPeriods
    rw [if_pos hc]
  constructor
  · by_cases h1 : 0 < config.periods.length
    · rw [hmain config h1, hmain config h1]
    · by_cases h2 : config.periodSpendHistory.length = 0
      · have e1 : migrateToHistoricalPeriods uuid now nowDay config =
            { config with periods := [],
                          budgetStartDate := config.currentBalanceAsOf } := by
          unfold migrateToHistoricalPeriods
          rw [if_neg h1, if_pos h2]
        rw [e1]
        unfold migrateToHistoricalPeriods
        simp [h2]
      · have hlen : 0 <
            (migrateToHistoricalPeriods uuid now nowDay config).periods.length := by
          unfold migrateToHistoricalPeriods
          rw [if_neg h1, if_neg h2]
          simp
          omega
        exact hmain _ hlen
  · intro h1
    refine ⟨?_, hmain config h1⟩
    unfold needsMigration
    simp [h1]

/-- C9 witness: the theorem applied to a concrete migrated config. -/
theorem c9_witness :
    needsMigration sampleMigratedConfig = false ∧
    migrateToHistoricalPeriods (fun _ => "") 0 0 sampleMigratedConfig =
      sampleMigratedConfig :=
  (c9_migration_idempotent (fun _ => "") 0 0 sampleMigratedConfig).2
    (by decide)

/-! ## C8: day-of-month clamping round trip -/

/-- One monthly `getNextOccurrence` step with original day 31 lands exactly
on the last day of the following month. -/
theorem getNextOccurrence_monthly_31 (d : Int) :
    getNextOccurrence d ExpenseFrequency.monthly 31 =
      firstOfM (monthIndexOf d + 1) + (dimM (monthIndexOf d + 1) - 1) ∧
    monthIndexOf (getNextOccurrence d ExpenseFrequency.monthly 31) =
      monthIndexOf d + 1 ∧
    dayOfMonthOf (getNextOccurrence d ExpenseFrequency.monthly 31) =
      dimM (monthIndexOf d + 1) := by
  obtain ⟨hrt, hm0, hm11, hd1, hdm⟩ := dayNumberToYmd_spec d
  have hM : monthIndexOf d + 1 =
      12 * (dayNumberToYmd d).y + (dayNumberToYmd d).m + 1 := rfl
  set M1 := 12 * (dayNumberToYmd d).y + (dayNumberToYmd d).m + 1 with hM1
  have hsplit : 12 * (M1 / 12) + M1 % 12 = M1 := by omega
  have hmb : 0 ≤ M1 % 12 ∧ M1 % 12 < 12 := by
    constructor
    · exact Int.emod_nonneg M1 (by norm_num)
    · exact Int.emod_lt_of_pos M1 (by norm_num)
  have hdimeq : daysInMonth (M1 / 12) (M1 % 12) = dimM M1 := rfl
  have hdimb := dimM_bounds M1
  have hpos := daysInMonth_pos (M1 / 12) (M1 % 12)
  have hinv1 : dayNumberToYmd (addMonthsDN d 1) =
      ⟨M1 / 12, M1 % 12,
        min (dayNumberToYmd d).d (daysInMonth (M1 / 12) (M1 % 12))⟩ := by
    unfold addMonthsDN
    exact dayNumberToYmd_of_valid _ _ _ (by omega) (by omega)
      (by rw [hdimeq]; omega) (min_le_right _ _)
  have hnext : getNextOccurrence d ExpenseFrequency.monthly 31 =
      daysFromCivil (M1 / 12) (M1 % 12) (dimM M1) := by
    simp only [getNextOccurrence, hinv1]
    unfold adjustDayForMonth lastDayOfMonth
    rw [hsplit, min_eq_right (by rw [← hdimeq] at hdimb ⊢; omega)]
  refine ⟨?_, ?_, ?_⟩
  · rw [hnext, daysFromCivil_linear, hsplit, hM]
  · have hinv2 : dayNumberToYmd (daysFromCivil (M1 / 12) (M1 % 12) (dimM M1)) =
        ⟨M1 / 12, M1 % 12, dimM M1⟩ :=
      dayNumberToYmd_of_valid _ _ _ (by omega) (by omega)
        (by rw [← hdimeq] at hdimb ⊢; omega) (le_of_eq hdimeq.symm)
    rw [hnext]
    unfold monthIndexOf
    rw [hinv2, ← hM]
    exact hsplit
  · have hinv2 : dayNumberToYmd (daysFromCivil (M1 / 12) (M1 % 12) (dimM M1)) =
        ⟨M1 / 12, M1 % 12, dimM M1⟩ :=
      dayNumberToYmd_of_valid _ _ _ (by omega) (by omega)
        (by rw [← hdimeq] at hdimb ⊢; omega) (le_of_eq hdimeq.symm)
    rw [hnext]
    unfold dayOfMonthOf
    rw [hinv2]
    show dimM M1 = dimM (monthIndexOf d + 1)
    rw [hM]

/-- C8: iterating the monthly advance with `originalDayOfMonth = 31` yields,
at every step, exactly the last day of the month reached (the month index
advancing by one per step); the day of month equals 31 exactly in 31-day
months, so the anchor day 31 resurfaces in every long month and is never
permanently truncated by short months. -/
theorem c8_monthly_day31_roundtrip (d : Int) (k : Nat) :
    dayOfMonthOf (iterateOccurrence ExpenseFrequency.monthly 31 (k + 1) d) =
      dimM (monthIndexOf d + (k + 1)) ∧
    monthIndexOf (iterateOccurrence ExpenseFrequency.monthly 31 (k + 1) d) =
      monthIndexOf d + (k + 1) ∧
    (dayOfMonthOf (iterateOccurrence ExpenseFrequency.monthly 31 (k + 1) d) = 31 ↔
      dimM (monthIndexOf d + (k + 1)) = 31) := by
  induction k generalizing d with
  | zero =>
      obtain ⟨-, hmi, hdo⟩ := getNextOccurrence_monthly_31 d
      unfold iterateOccurrence
      unfold iterateOccurrence
      push_cast
      refine ⟨hdo, hmi, ?_⟩
      rw [hdo]
  | succ n ih =>
      obtain ⟨-, hmi, -⟩ := getNextOccurrence_monthly_31 d
      have step : iterateOccurrence ExpenseFrequency.monthly 31 (n + 1 + 1) d =
          iterateOccurrence ExpenseFrequency.monthly 31 (n + 1)
            (getNextOccurrence d ExpenseFrequency.monthly 31) := rfl
      obtain ⟨ih1, ih2, ih3⟩ := ih (getNextOccurrence d ExpenseFrequency.monthly 31)
      rw [hmi] at ih1 ih2 ih3
      have e : monthIndexOf d + 1 + ((n : Int) + 1) =
          monthIndexOf d + ((n : Int) + 1 + 1) := by ring
      push_cast at ih1 ih2 ih3 ⊢
      rw [e] at ih1 ih2 ih3
      rw [step]
      exact ⟨ih1, ih2, ih3⟩

/-! ## C4: calculateGoalDates -/

/-- Once the after-baseline crossing is recorded, the scan never changes it
(nor `periodsToGoal`). -/
theorem goalScan_frozen (goal : Rat) (proj : List ProjectionEntry) :
    ∀ (s : GoalScanState) (x : Int), s.dateAfterBaseline = some x →
      (goalScan goal proj s).dateAfterBaseline = some x ∧
      (goalScan goal proj s).periodsToGoal = s.periodsToGoal := by
  induction proj with
  | nil => intro s x hx; simp [goalScan, hx]
  | cons e rest ih =>
      intro s x hx
      unfold goalScan
      by_cases h0 : e.periodNumber = 0
      · rw [if_pos h0]
        exact ih s x hx
      · rw [if_neg h0]
        have h1 : (goalScanStep goal e s).dateAfterBaseline = some x := by
          simp [goalScanStep, hx]
        obtain ⟨a, b⟩ := ih _ x h1
        refine ⟨a, ?_⟩
        rw [b]
        simp [goalScanStep, hx]

/-- If no scanned full period crosses the after-baseline goal, the scan
leaves the after-baseline fields untouched. -/
theorem goalScan_none (goal : Rat) (proj : List ProjectionEntry) :
    ∀ s : GoalScanState,
      (∀ e ∈ proj, e.periodNumber ≠ 0 → e.balanceAfterBaseline < goal) →
      (goalScan goal proj s).dateAfterBaseline = s.dateAfterBaseline ∧
      (goalScan goal proj s).periodsToGoal = s.periodsToGoal := by
  induction proj with
  | nil => intro s _; simp [goalScan]
  | cons e rest ih =>
      intro s hall
      unfold goalScan
      by_cases h0 : e.periodNumber = 0
      · rw [if_pos h0]
        exact ih s (fun e' he' => hall e' (List.mem_cons_of_mem _ he'))
      · rw [if_neg h0]
        have hlt : e.balanceAfterBaseline < goal :=
          hall e (List.mem_cons_self _ _) h0
        have hstep1 : (goalScanStep goal e s).dateAfterBaseline =
            s.dateAfterBaseline := by
          simp [goalScanStep, not_le.mpr hlt]
        have hstep2 : (goalScanStep goal e s).periodsToGoal =
            s.periodsToGoal := by
          simp [goalScanStep, not_le.mpr hlt]
        obtain ⟨a, b⟩ := ih (goalScanStep goal e s)
          (fun e' he' => hall e' (List.mem_cons_of_mem _ he'))
        exact ⟨by rw [a, hstep1], by rw [b, hstep2]⟩

/-- Characterisation of a recorded after-baseline crossing: it comes from
the first scanned entry with `periodNumber ≠ 0` whose
`balanceAfterBaseline` reaches the goal, and `periodsToGoal` is that
entry's period number. -/
theorem goalScan_some (goal : Rat) (proj : List ProjectionEntry) :
    ∀ s : GoalScanState, s.dateAfterBaseline = Option.none →
      ∀ d : Int, (goalScan goal proj s).dateAfterBaseline = some d →
        ∃ k e, proj.get? k = some e ∧ e.periodNumber ≠ 0 ∧
          goal ≤ e.balanceAfterBaseline ∧ e.date = d ∧
          (goalScan goal proj s).periodsToGoal = e.periodNumber ∧
          ∀ j e', j < k → proj.get? j = some e' → e'.periodNumber ≠ 0 →
            e'.balanceAfterBaseline < goal := by
  induction proj with
  | nil =>
      intro s hs d hd
      rw [goalScan] at hd
      rw [hs] at hd
      cases hd
  | cons e rest ih =>
      intro s hs d hd
      rw [goalScan] at hd
      by_cases h0 : e.periodNumber = 0
      · rw [if_pos h0] at hd
        obtain ⟨k, e1, hk, hpn, hge, hdate, hptg, hfirst⟩ := ih s hs d hd
        refine ⟨k + 1, e1, by simpa using hk, hpn, hge, hdate, ?_, ?_⟩
        · rw [goalScan, if_pos h0]
          exact hptg
        · intro j e2 hj hget hpn2
          cases j with
          | zero =>
              rw [List.get?_cons_zero] at hget
              injection hget with hget
              subst hget
              exact absurd h0 hpn2
          | succ j' =>
              exact hfirst j' e2 (by omega) (by simpa using hget) hpn2
      · rw [if_neg h0] at hd
        by_cases hcross : goal ≤ e.balanceAfterBaseline
        · have hsx : (goalScanStep goal e s).dateAfterBaseline = some e.date := by
            simp [goalScanStep, hs, hcross]
          have hpx : (goalScanStep goal e s).periodsToGoal = e.periodNumber := by
            simp [goalScanStep, hs, hcross]
          obtain ⟨a, b⟩ := goalScan_frozen goal rest (goalScanStep goal e s)
            e.date hsx
          refine ⟨0, e, rfl, h0, hcross, ?_, ?_, ?_⟩
          · rw [a] at hd
            exact Option.some.inj hd
          · rw [goalScan, if_neg h0, b, hpx]
          · intro j e2 hj _ _
            omega
        · have hsx : (goalScanStep goal e s).dateAfterBaseline = Option.none := by
            simp [goalScanStep, hs, hcross]
          obtain ⟨k, e1, hk, hpn, hge, hdate, hptg, hfirst⟩ :=
            ih (goalScanStep goal e s) hsx d hd
          refine ⟨k + 1, e1, by simpa using hk, hpn, hge, hdate, ?_, ?_⟩
          · rw [goalScan, if_neg h0]
            exact hptg
          · intro j e2 hj hget hpn2
            cases j with
            | zero =>
                rw [List.get?_cons_zero] at hget
                injection hget with hget
                subst hget
                exact not_le.mp hcross
            | succ j' =>
                exact hfirst j' e2 (by omega) (by simpa using hget) hpn2

/-- C4: `calculateGoalDates` returns all dates null and zero counts when
`savingsGoal ≤ 0`; for positive goals a reported after-baseline crossing
always comes from the first entry with `periodNumber ≥ 1` whose
`balanceAfterBaseline` reaches the goal (never period 0), with
`periodsToGoal ≥ 1` equal to that entry's period number; and when no entry
reaches the goal, `daysToGoal` is the sentinel −1. -/
theorem c4_calculateGoalDates (config : BudgetConfig)
    (projection : List ProjectionEntry) (today : Int) :
    (config.savingsGoal ≤ 0 →
      calculateGoalDates config projection today =
        { dateBeforeExpenses := Option.none, dateAfterExpenses := Option.none,
          dateAfterBaseline := Option.none, periodsToGoal := 0,
          daysToGoal := 0 }) ∧
    (0 < config.savingsGoal →
      ∀ d : Int,
        (calculateGoalDates config projection today).dateAfterBaseline = some d →
        1 ≤ (calculateGoalDates config projection today).periodsToGoal ∧
        ∃ k e, projection.get? k = some e ∧ 1 ≤ e.periodNumber ∧
          config.savingsGoal ≤ e.balanceAfterBaseline ∧ e.date = d ∧
          e.periodNumber =
            (calculateGoalDates config projection today).periodsToGoal ∧
          ∀ j e', j < k → projection.get? j = some e' → e'.periodNumber ≠ 0 →
            e'.balanceAfterBaseline < config.savingsGoal) ∧
    (0 < config.savingsGoal →
      (∀ e ∈ projection, e.balanceAfterBaseline < config.savingsGoal) →
      (calculateGoalDates config projection today).daysToGoal = -1) := by
  refine ⟨?_, ?_, ?_⟩
  · intro hg
    unfold calculateGoalDates
    rw [if_pos hg]
  · intro hg d hd
    have hng : ¬ config.savingsGoal ≤ 0 := not_le.mpr hg
    unfold calculateGoalDates at hd ⊢
    rw [if_neg hng] at hd ⊢
    simp only at hd ⊢
    obtain ⟨k, e, hk, hpn, hge, hdate, hptg, hfirst⟩ :=
      goalScan_some config.savingsGoal projection _ rfl d hd
    exact ⟨by omega, k, e, hk, by omega, hge, hdate, by rw [hptg], hfirst⟩
  · intro hg hall
    have hng : ¬ config.savingsGoal ≤ 0 := not_le.mpr hg
    unfold calculateGoalDates
    rw [if_neg hng]
    obtain ⟨hda, -⟩ := goalScan_none config.savingsGoal projection
      { dateBeforeExpenses := Option.none, dateAfterExpenses := Option.none,
        dateAfterBaseline := Option.none, periodsToGoal := 0 }
      (fun e he _ => hall e he)
    simp only [hda]

/-- C4 witness: the zero-goal branch on the default config, and the
goal-never-reached branch giving −1 on a config with a positive goal. -/
theorem c4_witness :
    calculateGoalDates (DEFAULT_CONFIG 0) [] 0 =
      { dateBeforeExpenses := Option.none, dateAfterExpenses := Option.none,
        dateAfterBaseline := Option.none, periodsToGoal := 0,
        daysToGoal := 0 } ∧
    (calculateGoalDates { DEFAULT_CONFIG 0 with savingsGoal := 100 } [] 0).daysToGoal
      = -1 :=
  ⟨(c4_calculateGoalDates (DEFAULT_CONFIG 0) [] 0).1
      (by norm_num [DEFAULT_CONFIG]),
   (c4_calculateGoalDates { DEFAULT_CONFIG 0 with savingsGoal := 100 } [] 0).2.2
     (by norm_num [DEFAULT_CONFIG]) (by simp)⟩

/-! ## C10 and C6: handlePeriodTransition -/

/-- C10: when `handlePeriodTransition` auto-records a transition (the user
had not updated `currentBalanceAsOf` to on/after the passed pay date), every
entry of the returned config's `periodSpendHistory` has `periodEndDate` on
or after `today - transitionHistoryRetentionDays`. -/
theorem c10_transition_history_retention (config : BudgetConfig)
    (today : Int) (projection : List ProjectionEntry) (r : TransitionResult)
    (h : handlePeriodTransition config today projection = some r)
    (hauto : ∀ b : Int, config.currentBalanceAsOf = some b →
      b < config.nextPayDate) :
    ∀ entry ∈ r.config.periodSpendHistory,
      today - config.transitionHistoryRetentionDays ≤ entry.periodEndDate := by
  by_cases ht : config.nextPayDate < today
  · unfold handlePeriodTransition at h
    simp only [detectPeriodTransition, ht, if_true] at h
    have hAT : handleAutoTransition config today config.nextPayDate
        projection = some r := by
      cases hb : config.currentBalanceAsOf with
      | none => rw [hb] at h; exact h
      | some b =>
          have hblt := hauto b hb
          rw [hb] at h
          simp only [if_neg (show ¬ config.nextPayDate ≤ b from by omega)] at h
          exact h
    unfold handleAutoTransition at hAT
    cases hcp : currentPeriodOf projection with
    | none => rw [hcp] at hAT; cases hAT
    | some cp =>
        rw [hcp] at hAT
        simp only [Option.some.injEq] at hAT
        subst hAT
        intro entry he
        simp only at he
        have := (List.mem_filter.mp he).2
        exact of_decide_eq_true this
  · unfold handlePeriodTransition at h
    simp only [detectPeriodTransition, ht, if_false] at h
    cases h

unseal Rat.add Rat.mul Rat.sub Rat.inv in
/-- C10 witness: the retention bound instantiated at the concrete
transition, for the single recorded entry. -/
theorem c10_witness :
    (1 : Int) - c6config.transitionHistoryRetentionDays ≤
      ({ periodEndDate := 0, startingBalance := 100, expectedEnding := 100,
         actualEnding := 80, trueSpend := 0 } : PeriodSpendEntry).periodEndDate :=
  c10_transition_history_retention c6config 1 [c6entry] c10result (by decide)
    (fun b hb => by simp [c6config, DEFAULT_CONFIG] at hb) _ (by decide)

/-- C6 (amended): when a transition is detected and the user has not updated
the balance, the returned config's `currentBalance` (and `newBalance`) is
the closed period's projected `balanceAfterBaseline`; when a
`periodStartSnapshot` exists, the *returned* `trueSpend` is the value
computed by `calculateTrueSpend` from the snapshot balance, the period's
income/expenses/ad-hoc amounts and the new balance, and the new
`periodSpendHistory` entry carries that computation's `expectedEnding` but
a hardcoded `trueSpend` of 0 (the code assumes the baseline was accurate
when auto-projecting); the entry is present provided the passed pay date is
within the retention window. -/
theorem c6_transition_records (config : BudgetConfig) (today : Int)
    (projection : List ProjectionEntry) (cp : ProjectionEntry)
    (ht : config.nextPayDate < today)
    (hauto : ∀ b : Int, config.currentBalanceAsOf = some b →
      b < config.nextPayDate)
    (hcp : currentPeriodOf projection = some cp) :
    ∃ r : TransitionResult,
      handlePeriodTransition config today projection = some r ∧
      r.config.currentBalance = cp.balanceAfterBaseline ∧
      r.newBalance = cp.balanceAfterBaseline ∧
      ∀ snapshot : PeriodStartSnapshot,
        config.periodStartSnapshot = some snapshot →
        r.trueSpend = (calculateTrueSpend snapshot.balance cp.income
          cp.expenses cp.adHocIncome cp.adHocExpenses
          cp.balanceAfterBaseline).trueSpend ∧
        (today - config.transitionHistoryRetentionDays ≤ config.nextPayDate →
          ({ periodEndDate := config.nextPayDate
             startingBalance := snapshot.balance
             expectedEnding := (calculateTrueSpend snapshot.balance cp.income
               cp.expenses cp.adHocIncome cp.adHocExpenses
               cp.balanceAfterBaseline).expectedEnding
             actualEnding := cp.balanceAfterBaseline
             trueSpend := 0 } : PeriodSpendEntry) ∈
            r.config.periodSpendHistory) := by
  have hmain : handlePeriodTransition config today projection =
      handleAutoTransition config today config.nextPayDate projection := by
    unfold handlePeriodTransition
    simp only [detectPeriodTransition, ht, if_true]
    cases hb : config.currentBalanceAsOf with
    | none => rfl
    | some b =>
        have hblt := hauto b hb
        simp only [if_neg (show ¬ config.nextPayDate ≤ b from by omega)]
  rw [hmain]
  unfold handleAutoTransition
  rw [hcp]
  cases hs : config.periodStartSnapshot with
  | none =>
      refine ⟨_, rfl, by simp, by simp, ?_⟩
      intro snapshot hsnap
      cases hsnap
  | some snapshot =>
      refine ⟨_, rfl, by simp, by simp, ?_⟩
      intro snapshot2 hsnap
      injection hsnap with hsnap
      subst hsnap
      constructor
      · simp
      · intro hret
        simp only
        refine List.mem_filter.mpr ⟨?_, ?_⟩
        · exact List.mem_append_right _ (by simp)
        · exact decide_eq_true (by simpa using hret)

unseal Rat.add Rat.mul Rat.sub Rat.inv in
/-- C6 witness: the amended theorem on a concrete transition (snapshot
balance 100, closed period ending at 80). -/
theorem c6_witness :
    (handlePeriodTransition c6config 1 [c6entry]).map
        (fun r => r.config.currentBalance) = some 80 := by
  obtain ⟨r, hr, hbal, -, -⟩ := c6_transition_records c6config 1 [c6entry]
    c6entry (by decide)
    (fun b hb => by simp [c6config, DEFAULT_CONFIG] at hb)
    (by decide)
  rw [hr]
  simpa [c6entry] using congrArg some hbal

unseal Rat.add Rat.mul Rat.sub Rat.inv in
/-- C6 counterexample: at the same concrete transition the recorded history
entry has `trueSpend = 0`, while `calculateTrueSpend` computes 20 — the
claim's trueSpend-from-calculateTrueSpend statement is false on the code. -/
theorem c6_counterexample :
    (handlePeriodTransition c6config 1 [c6entry]).map
        (fun r => r.config.periodSpendHistory) =
      some [{ periodEndDate := 0, startingBalance := 100,
              expectedEnding := 100, actualEnding := 80, trueSpend := 0 }] ∧
    (calculateTrueSpend 100 0 0 0 0 80).trueSpend = 20 := by
  constructor <;> decide

/-! ## C5: advancePassedDates -/

/-- `dimM` at a day number's month index is that month's length. -/
theorem dimM_monthIndexOf (d : Int) :
    dimM (monthIndexOf d) =
      daysInMonth (dayNumberToYmd d).y (dayNumberToYmd d).m := by
  obtain ⟨-, hm0, hm11, -, -⟩ := dayNumberToYmd_spec d
  unfold dimM monthIndexOf
  congr 1 <;> omega

/-- Every day number is its month's first day plus its day offset. -/
theorem self_eq_firstOfM (d : Int) :
    d = firstOfM (monthIndexOf d) + ((dayNumberToYmd d).d - 1) := by
  conv_lhs => rw [← (dayNumberToYmd_spec d).1]
  rw [daysFromCivil_linear]
  rfl

/-- The clamped re-construction used by the month-based branches of
`getNextOccurrence` lands on `min orig (dimM (M + k))` of linear month
`M + k`. -/
theorem monthAdvance_eq (d orig k : Int) :
    daysFromCivil (dayNumberToYmd (addMonthsDN d k)).y
      (dayNumberToYmd (addMonthsDN d k)).m
      (adjustDayForMonth (dayNumberToYmd (addMonthsDN d k)).y
        (dayNumberToYmd (addMonthsDN d k)).m orig) =
    firstOfM (monthIndexOf d + k) + (min orig (dimM (monthIndexOf d + k)) - 1) := by
  obtain ⟨hrt, hm0, hm11, hd1, hdm⟩ := dayNumberToYmd_spec d
  have hM : monthIndexOf d + k =
      12 * (dayNumberToYmd d).y + (dayNumberToYmd d).m + k := rfl
  set Mk := 12 * (dayNumberToYmd d).y + (dayNumberToYmd d).m + k with hMk
  have hsplit : 12 * (Mk / 12) + Mk % 12 = Mk := by omega
  have hdimeq : daysInMonth (Mk / 12) (Mk % 12) = dimM Mk := rfl
  have hpos := daysInMonth_pos (Mk / 12) (Mk % 12)
  have hinv1 : dayNumberToYmd (addMonthsDN d k) =
      ⟨Mk / 12, Mk % 12,
        min (dayNumberToYmd d).d (daysInMonth (Mk / 12) (Mk % 12))⟩ := by
    unfold addMonthsDN
    rw [← hMk]
    exact dayNumberToYmd_of_valid _ _ _ (by omega) (by omega) (by omega)
      (min_le_right _ _)
  rw [hinv1]
  simp only
  unfold adjustDayForMonth lastDayOfMonth
  rw [hsplit, daysFromCivil_linear, hsplit, hM]

/-- Every `getNextOccurrence` step moves strictly forward (for an original
day of month ≥ 1, as produced by `getDate`). -/
theorem getNextOccurrence_gt (cur orig : Int) (freq : ExpenseFrequency)
    (h1 : 1 ≤ orig) : cur < getNextOccurrence cur freq orig := by
  have hself := self_eq_firstOfM cur
  have hdb := dimM_monthIndexOf cur
  obtain ⟨-, -, -, hd1, hdm⟩ := dayNumberToYmd_spec cur
  have hstep : ∀ k : Int, 1 ≤ k →
      cur < firstOfM (monthIndexOf cur + k) +
        (min orig (dimM (monthIndexOf cur + k)) - 1) := by
    intro k hk
    have h01 := firstOfM_succ (monthIndexOf cur)
    have h02 : firstOfM (monthIndexOf cur + 1) ≤
        firstOfM (monthIndexOf cur + k) := firstOfM_le_of_le (by omega)
    have h03 := (dimM_bounds (monthIndexOf cur + k)).1
    have h04 := (dimM_bounds (monthIndexOf cur)).1
    omega
  cases freq with
  | weekly => simp only [getNextOccurrence]; omega
  | biweekly => simp only [getNextOccurrence]; omega
  | monthly =>
      simp only [getNextOccurrence]
      rw [monthAdvance_eq]
      exact hstep 1 (by omega)
  | quarterly =>
      simp only [getNextOccurrence]
      rw [monthAdvance_eq]
      exact hstep 3 (by omega)
  | yearly =>
      simp only [getNextOccurrence]
      unfold addYearsDN
      rw [monthAdvance_eq]
      exact hstep 12 (by omega)

/-- The first-occurrence loop never moves backward. -/
theorem firstOccurrenceLoop_ge (freq : ExpenseFrequency) (orig start : Int)
    (h1 : 1 ≤ orig) :
    ∀ (fuel : Nat) (cur : Int),
      cur ≤ firstOccurrenceLoop freq orig start fuel cur := by
  intro fuel
  induction fuel with
  | zero => intro cur; simp [firstOccurrenceLoop]
  | succ n ih =>
      intro cur
      unfold firstOccurrenceLoop
      split
      · have := getNextOccurrence_gt cur orig freq h1
        have := ih (getNextOccurrence cur freq orig)
        omega
      · omega

/-- With fuel exceeding the day gap, the first-occurrence loop reaches
`start`. -/
theorem firstOccurrenceLoop_reaches (freq : ExpenseFrequency)
    (orig start : Int) (h1 : 1 ≤ orig) :
    ∀ (fuel : Nat) (cur : Int), start - cur < fuel →
      start ≤ firstOccurrenceLoop freq orig start fuel cur := by
  intro fuel
  induction fuel with
  | zero => intro cur hlt; simp [firstOccurrenceLoop]; omega
  | succ n ih =>
      intro cur hlt
      unfold firstOccurrenceLoop
      split
      · next hc =>
          have hgt := getNextOccurrence_gt cur orig freq h1
          exact ih (getNextOccurrence cur freq orig) (by push_cast at hlt ⊢; omega)
      · next hc => omega

/-- `getFirstOccurrenceOnOrAfter` never moves before the anchor, and lands
on/after `startDate`. -/
theorem getFirstOccurrenceOnOrAfter_bounds (expense : RecurringExpense)
    (startDate : Int) :
    expense.nextDueDate ≤ getFirstOccurrenceOnOrAfter expense startDate ∧
    startDate ≤ max (getFirstOccurrenceOnOrAfter expense startDate) startDate ∧
    (expense.nextDueDate < startDate →
      startDate ≤ getFirstOccurrenceOnOrAfter expense startDate) := by
  obtain ⟨-, -, -, hd1, -⟩ := dayNumberToYmd_spec expense.nextDueDate
  by_cases hlt : expense.nextDueDate < startDate
  · have hrw : getFirstOccurrenceOnOrAfter expense startDate =
        firstOccurrenceLoop expense.frequency
          (dayNumberToYmd expense.nextDueDate).d startDate
          ((startDate - expense.nextDueDate).toNat + 1) expense.nextDueDate := by
      simp only [getFirstOccurrenceOnOrAfter]
      rw [if_neg (not_not_intro hlt)]
    rw [hrw]
    refine ⟨firstOccurrenceLoop_ge _ _ _ hd1 _ _, le_max_right _ _, ?_⟩
    intro _
    apply firstOccurrenceLoop_reaches _ _ _ hd1
    omega
  · have hrw : getFirstOccurrenceOnOrAfter expense startDate =
        expense.nextDueDate := by
      simp only [getFirstOccurrenceOnOrAfter]
      rw [if_pos hlt]
    rw [hrw]
    exact ⟨le_refl _, le_max_right _ _, fun hc => absurd hc hlt⟩

/-- The weekly/bi-weekly pay advance loop never moves backward. -/
theorem weeklyAdvanceLoop_ge (interval todayStart : Int)
    (hpos : 0 ≤ interval) :
    ∀ (fuel : Nat) (cur : Int),
      cur ≤ weeklyAdvanceLoop interval todayStart fuel cur := by
  intro fuel
  induction fuel with
  | zero => intro cur; simp [weeklyAdvanceLoop]
  | succ n ih =>
      intro cur
      unfold weeklyAdvanceLoop
      split
      · have := ih (cur + 7 * interval)
        omega
      · omega

/-- A date found by the semi-monthly 3-month scan is on/after today. -/
theorem semiMonthlyScan_ge (smc : SemiMonthlyConfig) (wh : WeekendHandling)
    (todayStart : Int) :
    ∀ (fuel : Nat) (y m d : Int),
      semiMonthlyScan smc wh todayStart fuel y m = some d → todayStart ≤ d := by
  intro fuel
  induction fuel with
  | zero => intro y m d h; cases h
  | succ n ih =>
      intro y m d h
      unfold semiMonthlyScan at h
      split at h
      · next payDay hfind =>
          injection h with h
          subst h
          have := List.find?_some hfind
          exact of_decide_eq_true this
      · exact ih _ _ _ h

/-- A date found by the monthly 3-month scan is on/after today. -/
theorem monthlyScan_ge (mc : MonthlyConfig) (wh : WeekendHandling)
    (todayStart : Int) :
    ∀ (fuel : Nat) (y m d : Int),
      monthlyScan mc wh todayStart fuel y m = some d → todayStart ≤ d := by
  intro fuel
  induction fuel with
  | zero => intro y m d h; cases h
  | succ n ih =>
      intro y m d h
      unfold monthlyScan at h
      split at h
      · next hc => injection h with h; omega
      · exact ih _ _ _ h

/-- A pay date produced by the pay-advance of `advancePassedDates` is never
before the old one. -/
theorem advancedPayDate_ge (config : BudgetConfig) (today : Int) :
    ∀ d : Int, advancedPayDate config today = some d →
      config.nextPayDate ≤ d := by
  intro d h
  unfold advancedPayDate at h
  split at h
  · next hpast =>
      cases hf : config.paycheckFrequency <;> rw [hf] at h
      · injection h with h
        subst h
        exact weeklyAdvanceLoop_ge 1 today (by omega) _ _
      · injection h with h
        subst h
        exact weeklyAdvanceLoop_ge 2 today (by omega) _ _
      · have := semiMonthlyScan_ge config.semiMonthlyConfig
          config.weekendHandling today 3 _ _ _ h
        omega
      · have := monthlyScan_ge config.monthlyConfig
          config.weekendHandling today 3 _ _ _ h
        omega
  · cases h

/-- The advance guard, as a proposition. -/
theorem advanceExpenseCond_iff (config : BudgetConfig) (today : Int)
    (e : RecurringExpense) :
    advanceExpenseCond config today e = true ↔
      (e.nextDueDate < today ∧
        (config.currentBalanceAsOf = Option.none ∨
          ∃ b : Int, config.currentBalanceAsOf = some b ∧
            e.nextDueDate < b)) := by
  unfold advanceExpenseCond
  cases hB : config.currentBalanceAsOf <;> simp [hB]

/-- C5 (amended): `advancePassedDates` never moves `nextPayDate` or any
expense's `nextDueDate` backward, and an expense's `nextDueDate` is
advanced (to its first occurrence on/after today) if and only if it is
before today AND strictly before `currentBalanceAsOf` (or no
`currentBalanceAsOf` is set); in particular an expense due in the past but
on/after `currentBalanceAsOf` is left unchanged, and when the function
returns null no expense satisfied the advance guard. -/
theorem c5_advancePassedDates (config : BudgetConfig) (today : Int) :
    (∀ c' : BudgetConfig, advancePassedDates config today = some c' →
      config.nextPayDate ≤ c'.nextPayDate ∧
      c'.recurringExpenses = config.recurringExpenses.map (fun expense =>
        if advanceExpenseCond config today expense then
          { expense with
              nextDueDate := getFirstOccurrenceOnOrAfter expense today }
        else expense) ∧
      (∀ (i : Nat) (e e' : RecurringExpense),
        config.recurringExpenses.get? i = some e →
        c'.recurringExpenses.get? i = some e' →
        e.nextDueDate ≤ e'.nextDueDate ∧
        (e' ≠ e ↔ (e.nextDueDate < today ∧
          (config.currentBalanceAsOf = Option.none ∨
            ∃ b : Int, config.currentBalanceAsOf = some b ∧
              e.nextDueDate < b))))) ∧
    (advancePassedDates config today = Option.none →
      ∀ e ∈ config.recurringExpenses,
        advanceExpenseCond config today e = false) := by
  constructor
  · intro c' h
    simp only [advancePassedDates] at h
    split at h
    · next hcond =>
        simp only [Option.some.injEq] at h
        subst h
        refine ⟨?_, rfl, ?_⟩
        · cases hpu : advancedPayDate config today with
          | none => simp [hpu]
          | some d =>
              have := advancedPayDate_ge config today d hpu
              simp [hpu]
              omega
        · intro i e e' he he'
          simp only [List.get?_map, he, Option.map_some] at he'
          injection he' with he'
          subst he'
          by_cases hc : advanceExpenseCond config today e
          · have hprop := (advanceExpenseCond_iff config today e).mp hc
            have hbnd := getFirstOccurrenceOnOrAfter_bounds e today
            have hstart := hbnd.2.2 hprop.1
            refine ⟨by simp [hc]; omega, ?_⟩
            simp only [hc, if_true]
            constructor
            · intro _; exact hprop
            · intro _ heq
              have : ({ e with
                  nextDueDate := getFirstOccurrenceOnOrAfter e today } :
                    RecurringExpense).nextDueDate = e.nextDueDate := by
                rw [heq]
              simp only at this
              omega
          · simp only [hc, if_false]
            refine ⟨le_refl _, ?_⟩
            constructor
            · intro hne; exact absurd rfl hne
            · intro hprop
              exact absurd ((advanceExpenseCond_iff config today e).mpr hprop)
                (by simpa using hc)
    · cases h
  · intro h e he
    simp only [advancePassedDates] at h
    split at h
    · cases h
    · next hcond =>
        simp only [Bool.or_eq_true, not_or] at hcond
        have := hcond.2
        rw [List.any_eq_true] at this
        push_neg at this
        simpa using this e he

unseal Rat.add Rat.mul Rat.sub Rat.inv in
/-- C5 witness: the amended characterisation at a concrete config whose
weekly expense (due day 0, balance as of day 5, today day 9) advances to
day 14. -/
theorem c5_witness :
    c5config2.nextPayDate ≤ c5advanced.nextPayDate ∧
    c5advanced.recurringExpenses = c5config2.recurringExpenses.map
      (fun expense =>
        if advanceExpenseCond c5config2 9 expense then
          { expense with
              nextDueDate := getFirstOccurrenceOnOrAfter expense 9 }
        else expense) := by
  obtain ⟨h1, h2, -⟩ :=
    (c5_advancePassedDates c5config2 9).1 c5advanced (by decide)
  exact ⟨h1, h2⟩

unseal Rat.add Rat.mul Rat.sub Rat.inv in
/-- C5 counterexample: an expense due in the past (day 0 < today 1) and due
exactly on `currentBalanceAsOf` (day 0) is NOT advanced — the code requires
the due date to be strictly before `currentBalanceAsOf`, not on/before it,
so `advancePassedDates` returns null. -/
theorem c5_counterexample :
    advancePassedDates c5config 1 = Option.none ∧
    c5expense ∈ c5config.recurringExpenses ∧
    c5expense.nextDueDate < 1 ∧
    c5config.currentBalanceAsOf = some 0 ∧
    c5expense.nextDueDate ≤ 0 := by
  refine ⟨by decide, by decide, by decide, by decide, by decide⟩

/-! ## C1: the projection recurrence -/

/-- Shifting the start of the running balance by one period. -/
theorem projBalFrom_shift (config : BudgetConfig) (ov : Option Rat)
    (pays : List Int) (allOcc : List ExpenseOccurrence) :
    ∀ (k i : Nat) (bal : Rat),
      projBalFrom config ov pays allOcc i bal (k + 1) =
        projBalFrom config ov pays allOcc (i + 1)
          (mkPeriodEntry config ov pays allOcc i bal).balanceAfterBaseline k := by
  intro k
  induction k with
  | zero =>
      intro i bal
      unfold projBalFrom
      unfold projBalFrom
      simp
  | succ n ih =>
      intro i bal
      rw [show n + 1 + 1 = (n + 1) + 1 from rfl]
      unfold projBalFrom
      rw [ih i bal]
      have e : i + (n + 1) = i + 1 + n := by omega
      rw [e]

/-- Every entry produced by the full-period loop is the canonical entry of
its index, fed with the running balance. -/
theorem projLoop_get (config : BudgetConfig) (ov : Option Rat)
    (pays : List Int) (allOcc : List ExpenseOccurrence) :
    ∀ (fuel : Nat) (i : Nat) (bal : Rat) (gp : Option Nat) (k : Nat)
      (e : ProjectionEntry),
      (projLoop config ov pays allOcc fuel i bal gp).get? k = some e →
      e = mkPeriodEntry config ov pays allOcc (i + k)
        (projBalFrom config ov pays allOcc i bal k) := by
  intro fuel
  induction fuel with
  | zero => intro i bal gp k e h; cases h
  | succ n ih =>
      intro i bal gp k e h
      simp only [projLoop] at h
      split at h
      · split at h
        · split at h
          · cases k with
            | zero =>
                rw [List.get?_cons_zero] at h
                injection h with h
                subst h
                simp [projBalFrom]
            | succ k' =>
                rw [List.get?_cons_succ, List.get?_nil] at h
                cases h
          · cases k with
            | zero =>
                rw [List.get?_cons_zero] at h
                injection h with h
                subst h
                simp [projBalFrom]
            | succ k' =>
                rw [List.get?_cons_succ] at h
                have hx := ih (i + 1) _ _ k' e h
                rw [hx, projBalFrom_shift]
                congr 1
                omega
        · cases k with
          | zero =>
              rw [List.get?_cons_zero] at h
              injection h with h
              subst h
              simp [projBalFrom]
          | succ k' =>
              rw [List.get?_cons_succ] at h
              have hx := ih (i + 1) _ _ k' e h
              rw [hx, projBalFrom_shift]
              congr 1
              omega
      · cases h

/-- A period-0 entry has period number 0. -/
theorem projPeriod0Entry_pn (config : BudgetConfig) (ov : Option Rat)
    (today : Int) (e0 : ProjectionEntry)
    (h : projPeriod0Entry config ov today = some e0) : e0.periodNumber = 0 := by
  unfold projPeriod0Entry at h
  split at h
  · cases h
  · split at h
    · injection h with h
      subst h
      rfl
    · cases h

/-- The loop's starting balance is period 0's `balanceAfterBaseline` when a
period-0 entry exists. -/
theorem projInitBalance_of_p0 (config : BudgetConfig) (ov : Option Rat)
    (today : Int) (e0 : ProjectionEntry)
    (h : projPeriod0Entry config ov today = some e0) :
    projInitBalance config ov today = e0.balanceAfterBaseline := by
  unfold projInitBalance
  rw [h]

/-- The loop's starting balance is `currentBalance` when no period-0 entry
exists. -/
theorem projInitBalance_of_none (config : BudgetConfig) (ov : Option Rat)
    (today : Int) (h : projPeriod0Entry config ov today = Option.none) :
    projInitBalance config ov today = config.currentBalance := by
  unfold projInitBalance
  rw [h]

/-- The canonical entry of loop index `i` carries period number `i + 1`. -/
theorem mkPeriodEntry_periodNumber (config : BudgetConfig) (ov : Option Rat)
    (pays : List Int) (allOcc : List ExpenseOccurrence) (i : Nat) (bal : Rat) :
    (mkPeriodEntry config ov pays allOcc i bal).periodNumber = i + 1 := rfl

/-- `balanceAfterIncome` of a canonical full-period entry. -/
theorem mkPeriodEntry_bAI (config : BudgetConfig) (ov : Option Rat)
    (pays : List Int) (allOcc : List ExpenseOccurrence) (i : Nat) (bal : Rat) :
    (mkPeriodEntry config ov pays allOcc i bal).balanceAfterIncome =
      bal + config.paycheckAmount +
        sumAdHocAmounts ((periodAdHocsFor config (i + 1)).filter
          (fun t => t.isIncome)) := rfl

/-- `balanceAfterExpenses` of a canonical full-period entry. -/
theorem mkPeriodEntry_bAE (config : BudgetConfig) (ov : Option Rat)
    (pays : List Int) (allOcc : List ExpenseOccurrence) (i : Nat) (bal : Rat) :
    (mkPeriodEntry config ov pays allOcc i bal).balanceAfterExpenses =
      (mkPeriodEntry config ov pays allOcc i bal).balanceAfterIncome -
        (sumOccurrenceAmounts (getExpensesBetweenDates allOcc
            (periodWindowStart pays i) (periodWindowEnd pays i)) +
          sumAdHocAmounts ((periodAdHocsFor config (i + 1)).filter
            (fun t => !t.isIncome))) := rfl

/-- `balanceAfterBaseline` of a canonical full-period entry. -/
theorem mkPeriodEntry_bAB (config : BudgetConfig) (ov : Option Rat)
    (pays : List Int) (allOcc : List ExpenseOccurrence) (i : Nat) (bal : Rat) :
    (mkPeriodEntry config ov pays allOcc i bal).balanceAfterBaseline =
      (mkPeriodEntry config ov pays allOcc i bal).balanceAfterExpenses -
        effectiveBaseline config ov := rfl

/-- One step of the after-baseline track. -/
theorem projTrackBAB_succ (config : BudgetConfig) (ov : Option Rat)
    (today : Int) (k : Nat) :
    projTrackBAB config ov today (k + 1) =
      (mkPeriodEntry config ov (projFuturePayDates config today)
        (projOccurrences config today) k
        (projTrackBAB config ov today k)).balanceAfterBaseline := by
  show projBalFrom config ov (projFuturePayDates config today)
      (projOccurrences config today) 0 (projInitBalance config ov today)
      (k + 1) =
    (mkPeriodEntry config ov (projFuturePayDates config today)
      (projOccurrences config today) k
      (projBalFrom config ov (projFuturePayDates config today)
        (projOccurrences config today) 0 (projInitBalance config ov today)
        k)).balanceAfterBaseline
  rw [projBalFrom, Nat.zero_add]

/-- Decomposition of an indexed read of the projection: either the period-0
entry at index 0, or a loop entry shifted by the optional period-0 slot. -/
theorem generateProjection_get (config : BudgetConfig) (ov : Option Rat)
    (today : Int) (j : Nat) (e : ProjectionEntry)
    (h : (generateProjection config ov today).get? j = some e) :
    (∃ e0, projPeriod0Entry config ov today = some e0 ∧ j = 0 ∧ e = e0) ∨
    (∃ k, (projLoop config ov (projFuturePayDates config today)
        (projOccurrences config today) (projFuturePayDates config today).length
        0 (projInitBalance config ov today)
        (projInitGoal config ov today)).get? k = some e ∧
      j = k + (projPeriod0Entry config ov today).toList.length) := by
  unfold generateProjection at h
  split at h
  · cases h
  · cases hp0 : projPeriod0Entry config ov today with
    | none =>
        rw [hp0] at h
        simp only [Option.toList_none, List.nil_append] at h
        exact Or.inr ⟨j, h, by simp⟩
    | some e0 =>
        rw [hp0] at h
        simp only [Option.toList_some, List.singleton_append] at h
        cases j with
        | zero =>
            rw [List.get?_cons_zero] at h
            injection h with h
            exact Or.inl ⟨e0, rfl, rfl, h.symm⟩
        | succ k =>
            rw [List.get?_cons_succ] at h
            exact Or.inr ⟨k, h, by simp⟩

/-- `generateProjection` is the optional period-0 entry followed by the
full-period loop (the empty-pay-dates guard is subsumed: with no pay dates
both parts are empty). -/
theorem generateProjection_decomp (config : BudgetConfig) (ov : Option Rat)
    (today : Int) :
    generateProjection config ov today =
      (projPeriod0Entry config ov today).toList ++
        projLoop config ov (projFuturePayDates config today)
          (projOccurrences config today)
          (projFuturePayDates config today).length 0
          (projInitBalance config ov today)
          (projInitGoal config ov today) := by
  unfold generateProjection
  split
  · next hemp =>
      rw [List.isEmpty_iff] at hemp
      have h0 : projPeriod0Entry config ov today = Option.none := by
        unfold projPeriod0Entry
        rw [hemp]
      rw [h0, hemp]
      rfl
  · rfl

/-- A loop entry, expressed on the after-baseline track. -/
theorem projLoop_get_track (config : BudgetConfig) (ov : Option Rat)
    (today : Int) (k : Nat) (e : ProjectionEntry)
    (h : (projLoop config ov (projFuturePayDates config today)
        (projOccurrences config today) (projFuturePayDates config today).length
        0 (projInitBalance config ov today)
        (projInitGoal config ov today)).get? k = some e) :
    e = mkPeriodEntry config ov (projFuturePayDates config today)
      (projOccurrences config today) k (projTrackBAB config ov today k) := by
  have hx := projLoop_get config ov (projFuturePayDates config today)
    (projOccurrences config today) (projFuturePayDates config today).length
    0 (projInitBalance config ov today) (projInitGoal config ov today) k e h
  rw [Nat.zero_add] at hx
  exact hx

/-- If a list has an entry at index `n + 1`, it has one at index `n`. -/
theorem prev_get_some {α : Type} (l : List α) (n : Nat) (e : α)
    (h : l.get? (n + 1) = some e) : ∃ e', l.get? n = some e' := by
  cases hx : l.get? n with
  | some e' => exact ⟨e', rfl⟩
  | none =>
      rw [List.get?_eq_none] at hx
      rw [List.get?_eq_none.mpr (by omega)] at h
      cases h

/-- C1: for every emitted full period (`periodNumber ≥ 1`),
`balanceAfterIncome` is the previous entry's `balanceAfterBaseline` (or
`currentBalance` when the entry is first, i.e. no period 0 was emitted)
plus `paycheckAmount` plus the period's ad-hoc income;
`balanceAfterExpenses` subtracts the recurring-expense occurrences whose
dates fall in the period's window, and the period's ad-hoc expenses;
`balanceAfterBaseline` subtracts the effective baseline
(`baselineOverride ?? baselineSpendPerPeriod`). -/
theorem c1_projection_recurrence (config : BudgetConfig) (ov : Option Rat)
    (today : Int) :
    ∀ (j : Nat) (e : ProjectionEntry),
      (generateProjection config ov today).get? j = some e →
      1 ≤ e.periodNumber →
      e.balanceAfterIncome =
        (if j = 0 then config.currentBalance
         else (((generateProjection config ov today).get? (j - 1)).map
           (fun p => p.balanceAfterBaseline)).getD config.currentBalance) +
        config.paycheckAmount +
        sumAdHocAmounts ((periodAdHocsFor config e.periodNumber).filter
          (fun t => t.isIncome)) ∧
      e.balanceAfterExpenses = e.balanceAfterIncome -
        sumOccurrenceAmounts (getExpensesBetweenDates
          (projOccurrences config today)
          (periodWindowStart (projFuturePayDates config today)
            (e.periodNumber - 1))
          (periodWindowEnd (projFuturePayDates config today)
            (e.periodNumber - 1))) -
        sumAdHocAmounts ((periodAdHocsFor config e.periodNumber).filter
          (fun t => !t.isIncome)) ∧
      e.balanceAfterBaseline = e.balanceAfterExpenses -
        effectiveBaseline config ov := by
  intro j e hj hpn
  obtain ⟨e0, hp0, hj0, he0⟩ | ⟨k, hk, hjk⟩ :=
    generateProjection_get config ov today j e hj
  · rw [he0] at hpn
    rw [projPeriod0Entry_pn config ov today e0 hp0] at hpn
    omega
  · have hent := projLoop_get_track config ov today k e hk
    have hdec := generateProjection_decomp config ov today
    have hprev :
        (if j = 0 then config.currentBalance
         else (((generateProjection config ov today).get? (j - 1)).map
           (fun p => p.balanceAfterBaseline)).getD config.currentBalance) =
        projTrackBAB config ov today k := by
      cases hp0 : projPeriod0Entry config ov today with
      | none =>
          rw [hp0, Option.toList_none, List.length_nil, Nat.add_zero] at hjk
          rw [hjk]
          cases k with
          | zero =>
              rw [if_pos rfl]
              rw [show projTrackBAB config ov today 0 =
                projInitBalance config ov today from rfl,
                projInitBalance_of_none config ov today hp0]
          | succ k' =>
              rw [if_neg (by omega)]
              obtain ⟨e', he'⟩ := prev_get_some _ k' e hk
              have he'' := projLoop_get_track config ov today k' e' he'
              simp only [Nat.add_sub_cancel]
              rw [hdec, hp0, Option.toList_none, List.nil_append, he']
              show e'.balanceAfterBaseline =
                projTrackBAB config ov today (k' + 1)
              rw [he'', projTrackBAB_succ]
      | some e0 =>
          rw [hp0, Option.toList_some, List.length_singleton] at hjk
          rw [hjk]
          rw [if_neg (by omega)]
          simp only [Nat.add_sub_cancel]
          rw [hdec, hp0, Option.toList_some, List.singleton_append]
          cases k with
          | zero =>
              rw [List.get?_cons_zero]
              show e0.balanceAfterBaseline = projTrackBAB config ov today 0
              rw [show projTrackBAB config ov today 0 =
                projInitBalance config ov today from rfl,
                projInitBalance_of_p0 config ov today e0 hp0]
          | succ k' =>
              rw [List.get?_cons_succ]
              obtain ⟨e', he'⟩ := prev_get_some _ k' e hk
              have he'' := projLoop_get_track config ov today k' e' he'
              rw [he']
              show e'.balanceAfterBaseline =
                projTrackBAB config ov today (k' + 1)
              rw [he'', projTrackBAB_succ]
    subst hent
    refine ⟨?_, ?_, ?_⟩
    · rw [hprev]
      simp only [mkPeriodEntry_periodNumber]
      exact mkPeriodEntry_bAI config ov _ _ k _
    · simp only [mkPeriodEntry_periodNumber, Nat.add_sub_cancel]
      rw [mkPeriodEntry_bAE config ov _ _ k _]
      ring
    · exact mkPeriodEntry_bAB config ov _ _ k _

set_option maxRecDepth 40000 in
unseal Rat.add Rat.mul Rat.sub Rat.inv in
/-- C1 witness: the recurrence instantiated at `c1cfg` (no period 0, first
entry is period 1 with balances 15 = 5 + 10). -/
theorem c1_witness :
    c1entry.balanceAfterIncome =
      (if (0 : Nat) = 0 then c1cfg.currentBalance
       else (((generateProjection c1cfg Option.none 0).get? (0 - 1)).map
         (fun p => p.balanceAfterBaseline)).getD c1cfg.currentBalance) +
      c1cfg.paycheckAmount +
      sumAdHocAmounts ((periodAdHocsFor c1cfg c1entry.periodNumber).filter
        (fun t => t.isIncome)) ∧
    c1entry.balanceAfterExpenses = c1entry.balanceAfterIncome -
      sumOccurrenceAmounts (getExpensesBetweenDates
        (projOccurrences c1cfg 0)
        (periodWindowStart (projFuturePayDates c1cfg 0)
          (c1entry.periodNumber - 1))
        (periodWindowEnd (projFuturePayDates c1cfg 0)
          (c1entry.periodNumber - 1))) -
      sumAdHocAmounts ((periodAdHocsFor c1cfg c1entry.periodNumber).filter
        (fun t => !t.isIncome)) ∧
    c1entry.balanceAfterBaseline = c1entry.balanceAfterExpenses -
      effectiveBaseline c1cfg Option.none :=
  c1_projection_recurrence c1cfg Option.none 0 0 c1entry (by decide) (by decide)

/-! ## C3: termination and the goal-extension window -/

/-- The fixed-interval branch emits exactly `n` dates. -/
theorem fixedIntervalDates_length (wh : WeekendHandling) (step : Int) :
    ∀ (n : Nat) (cur : Int), (fixedIntervalDates wh step n cur).length = n := by
  intro n
  induction n with
  | zero => intro cur; rfl
  | succ k ih =>
      intro cur
      simp only [fixedIntervalDates, List.length_cons, ih]

/-- The semi-monthly per-month push fold never grows past `maxCount`. -/
theorem smFold_length_le (startDate : Int) (maxCount : Nat) :
    ∀ (l ds : List Int), ds.length ≤ maxCount →
      (l.foldl
        (fun ds payDay =>
          if startDate ≤ payDay ∧ ds.length < maxCount then ds ++ [payDay]
          else ds) ds).length ≤ maxCount := by
  intro l
  induction l with
  | nil => intro ds h; exact h
  | cons p rest ih =>
      intro ds h
      simp only [List.foldl_cons]
      apply ih
      split
      · next hc => simp only [List.length_append, List.length_singleton]; omega
      · exact h

/-- The semi-monthly month loop never emits more than `maxCount` dates. -/
theorem semiMonthlyLoop_length_le (smc : SemiMonthlyConfig)
    (wh : WeekendHandling) (startDate : Int) (maxCount : Nat) :
    ∀ (fuel : Nat) (y m : Int) (dates : List Int),
      dates.length ≤ maxCount →
      (semiMonthlyLoop smc wh startDate maxCount fuel y m dates).length ≤
        maxCount := by
  intro fuel
  induction fuel with
  | zero => intro y m dates h; exact h
  | succ n ih =>
      intro y m dates h
      simp only [semiMonthlyLoop]
      split
      · exact ih _ _ _ (smFold_length_le startDate maxCount _ dates h)
      · exact h

/-- The monthly month loop never emits more than `maxCount` dates. -/
theorem monthlyLoop_length_le (mc : MonthlyConfig) (wh : WeekendHandling)
    (startDate : Int) (maxCount : Nat) :
    ∀ (fuel : Nat) (y m : Int) (dates : List Int),
      dates.length ≤ maxCount →
      (monthlyLoop mc wh startDate maxCount fuel y m dates).length ≤
        maxCount := by
  intro fuel
  induction fuel with
  | zero => intro y m dates h; exact h
  | succ n ih =>
      intro y m dates h
      simp only [monthlyLoop]
      split
      · next hlt =>
          apply ih
          split
          · simp only [List.length_append, List.length_singleton]; omega
          · exact h
      · exact h

/-- `generatePayDates` returns at most `maxCount` dates. -/
theorem generatePayDates_length_le (config : BudgetConfig) (n : Nat) :
    (generatePayDates config n).length ≤ n := by
  unfold generatePayDates
  cases config.paycheckFrequency
  · rw [fixedIntervalDates_length]
  · rw [fixedIntervalDates_length]
  · exact semiMonthlyLoop_length_le _ _ _ _ _ _ _ _ (by simp)
  · exact monthlyLoop_length_le _ _ _ _ _ _ _ _ (by simp)

/-- The projection never sees more than `maxPeriods` pay dates. -/
theorem projFuturePayDates_length_le (config : BudgetConfig) (today : Int) :
    (projFuturePayDates config today).length ≤ maxPeriods :=
  le_trans (List.length_filter_le _ _)
    (generatePayDates_length_le config maxPeriods)

/-- The full-period loop emits at most `fuel` entries. -/
theorem projLoop_length_le (config : BudgetConfig) (ov : Option Rat)
    (pays : List Int) (allOcc : List ExpenseOccurrence) :
    ∀ (fuel i : Nat) (bal : Rat) (gp : Option Nat),
      (projLoop config ov pays allOcc fuel i bal gp).length ≤ fuel := by
  intro fuel
  induction fuel with
  | zero => intro i bal gp; simp [projLoop]
  | succ n ih =>
      intro i bal gp
      simp only [projLoop]
      split
      · split
        · split
          · simp
          · simp only [List.length_cons]
            exact Nat.succ_le_succ (ih _ _ _)
        · simp only [List.length_cons]
          exact Nat.succ_le_succ (ih _ _ _)
      · simp

/-- Once the goal crossing is recorded at loop index `g`, at most
`g + extra + 1 - i` further entries are emitted (always at least the one
entry of the break iteration). -/
theorem projLoop_some_length_le (config : BudgetConfig) (ov : Option Rat)
    (pays : List Int) (allOcc : List ExpenseOccurrence) :
    ∀ (fuel i : Nat) (bal : Rat) (g : Nat),
      (projLoop config ov pays allOcc fuel i bal (some g)).length ≤
        max (g + extraPeriodsFor config.paycheckFrequency + 1 - i) 1 := by
  intro fuel
  induction fuel with
  | zero => intro i bal g; simp [projLoop]
  | succ n ih =>
      intro i bal g
      simp only [projLoop]
      split
      · split
        · simp
        · next hni =>
            simp only [List.length_cons]
            have hx := ih (i + 1)
              (mkPeriodEntry config ov pays allOcc i bal).balanceAfterBaseline g
            omega
      · simp

/-- One unfolding of the full-period loop outside the pay-date range. -/
theorem projLoop_succ_notin (config : BudgetConfig) (ov : Option Rat)
    (pays : List Int) (allOcc : List ExpenseOccurrence) (n i : Nat)
    (bal : Rat) (gp : Option Nat) (hilen : ¬ i < pays.length) :
    projLoop config ov pays allOcc (n + 1) i bal gp = [] := by
  simp only [projLoop]
  rw [if_neg hilen]

/-- One unfolding of the full-period loop in the already-crossed state. -/
theorem projLoop_succ_some (config : BudgetConfig) (ov : Option Rat)
    (pays : List Int) (allOcc : List ExpenseOccurrence) (n i : Nat)
    (bal : Rat) (g : Nat) (hilen : i < pays.length) :
    projLoop config ov pays allOcc (n + 1) i bal (some g) =
      (if g + extraPeriodsFor config.paycheckFrequency ≤ i then
        [mkPeriodEntry config ov pays allOcc i bal]
      else
        mkPeriodEntry config ov pays allOcc i bal ::
          projLoop config ov pays allOcc n (i + 1)
            (mkPeriodEntry config ov pays allOcc i bal).balanceAfterBaseline
            (some g)) := by
  simp only [projLoop]
  rw [if_pos hilen]

/-- One unfolding of the full-period loop in the not-yet-crossed state. -/
theorem projLoop_succ_none (config : BudgetConfig) (ov : Option Rat)
    (pays : List Int) (allOcc : List ExpenseOccurrence) (n i : Nat)
    (bal : Rat) (hilen : i < pays.length) :
    projLoop config ov pays allOcc (n + 1) i bal Option.none =
      (if config.savingsGoal ≤
          (mkPeriodEntry config ov pays allOcc i bal).balanceAfterBaseline then
        (if i + extraPeriodsFor config.paycheckFrequency ≤ i then
          [mkPeriodEntry config ov pays allOcc i bal]
        else
          mkPeriodEntry config ov pays allOcc i bal ::
            projLoop config ov pays allOcc n (i + 1)
              (mkPeriodEntry config ov pays allOcc i bal).balanceAfterBaseline
              (some i))
      else
        mkPeriodEntry config ov pays allOcc i bal ::
          projLoop config ov pays allOcc n (i + 1)
            (mkPeriodEntry config ov pays allOcc i bal).balanceAfterBaseline
            Option.none) := by
  simp only [projLoop]
  rw [if_pos hilen]
  by_cases hc : config.savingsGoal ≤
      (mkPeriodEntry config ov pays allOcc i bal).balanceAfterBaseline
  · simp only [if_pos hc]
  · simp only [if_neg hc]

/-- Scanning in the not-yet-crossed state: if the first entry whose
`balanceAfterBaseline` reaches the goal sits at position `j`, at most
`extra` further entries follow it. -/
theorem projLoop_none_first_cross (config : BudgetConfig) (ov : Option Rat)
    (pays : List Int) (allOcc : List ExpenseOccurrence) :
    ∀ (fuel i : Nat) (bal : Rat) (j : Nat) (e : ProjectionEntry),
      (projLoop config ov pays allOcc fuel i bal Option.none).get? j = some e →
      config.savingsGoal ≤ e.balanceAfterBaseline →
      (∀ (j' : Nat) (e' : ProjectionEntry), j' < j →
        (projLoop config ov pays allOcc fuel i bal Option.none).get? j' =
          some e' →
        e'.balanceAfterBaseline < config.savingsGoal) →
      (projLoop config ov pays allOcc fuel i bal Option.none).length ≤
        j + extraPeriodsFor config.paycheckFrequency + 1 := by
  intro fuel
  induction fuel with
  | zero => intro i bal j e h; cases h
  | succ n ih =>
      intro i bal j e h hcross hfirst
      by_cases hilen : i < pays.length
      · by_cases hc : config.savingsGoal ≤
            (mkPeriodEntry config ov pays allOcc i bal).balanceAfterBaseline
        · rw [projLoop_succ_none config ov pays allOcc n i bal hilen,
            if_pos hc] at h hfirst ⊢
          by_cases hbreak : i + extraPeriodsFor config.paycheckFrequency ≤ i
          · rw [if_pos hbreak]
            simp only [List.length_singleton]
            omega
          · rw [if_neg hbreak] at h hfirst ⊢
            have hj0 : j = 0 := by
              by_contra hj
              have h0 := hfirst 0 (mkPeriodEntry config ov pays allOcc i bal)
                (by omega) (by rw [List.get?_cons_zero])
              exact absurd hc (not_le.mpr h0)
            subst hj0
            simp only [List.length_cons]
            have hx := projLoop_some_length_le config ov pays allOcc n (i + 1)
              (mkPeriodEntry config ov pays allOcc i bal).balanceAfterBaseline i
            omega
        · rw [projLoop_succ_none config ov pays allOcc n i bal hilen,
            if_neg hc] at h hfirst ⊢
          cases j with
          | zero =>
              rw [List.get?_cons_zero] at h
              injection h with h
              rw [h] at hc
              exact absurd hcross hc
          | succ j' =>
              rw [List.get?_cons_succ] at h
              simp only [List.length_cons]
              have hrec := ih (i + 1)
                (mkPeriodEntry config ov pays allOcc i bal).balanceAfterBaseline
                j' e h hcross
                (fun j'' e'' hlt hget =>
                  hfirst (j'' + 1) e'' (by omega)
                    (by rw [List.get?_cons_succ]; exact hget))
              omega
      · rw [projLoop_succ_notin config ov pays allOcc n i bal _ hilen] at h
        cases h

/-- Scanning in the not-yet-crossed state with no entry ever crossing: one
entry per remaining pay date (up to fuel). -/
theorem projLoop_none_nocross_length (config : BudgetConfig) (ov : Option Rat)
    (pays : List Int) (allOcc : List ExpenseOccurrence) :
    ∀ (fuel i : Nat) (bal : Rat),
      (∀ e ∈ projLoop config ov pays allOcc fuel i bal Option.none,
        e.balanceAfterBaseline < config.savingsGoal) →
      (projLoop config ov pays allOcc fuel i bal Option.none).length =
        min fuel (pays.length - i) := by
  intro fuel
  induction fuel with
  | zero => intro i bal h; simp [projLoop]
  | succ n ih =>
      intro i bal hall
      by_cases hilen : i < pays.length
      · by_cases hc : config.savingsGoal ≤
            (mkPeriodEntry config ov pays allOcc i bal).balanceAfterBaseline
        · exfalso
          rw [projLoop_succ_none config ov pays allOcc n i bal hilen,
            if_pos hc] at hall
          by_cases hbreak : i + extraPeriodsFor config.paycheckFrequency ≤ i
          · rw [if_pos hbreak] at hall
            exact absurd (hall _ (by simp)) (not_lt.mpr hc)
          · rw [if_neg hbreak] at hall
            exact absurd (hall _ (by simp)) (not_lt.mpr hc)
        · rw [projLoop_succ_none config ov pays allOcc n i bal hilen,
            if_neg hc] at hall ⊢
          rw [List.length_cons, ih (i + 1)
            (mkPeriodEntry config ov pays allOcc i bal).balanceAfterBaseline
            (fun e he => hall e (List.mem_cons_of_mem _ he))]
          omega
      · rw [projLoop_succ_notin config ov pays allOcc n i bal _ hilen]
        simp only [List.length_nil]
        omega

/-- `projInitGoal` is `none` when no period-0 entry was emitted. -/
theorem projInitGoal_of_none (config : BudgetConfig) (ov : Option Rat)
    (today : Int) (h : projPeriod0Entry config ov today = Option.none) :
    projInitGoal config ov today = Option.none := by
  unfold projInitGoal
  rw [h]

/-- `projInitGoal` after an emitted period-0 entry: `some 0` exactly when
that entry crossed the goal. -/
theorem projInitGoal_of_p0 (config : BudgetConfig) (ov : Option Rat)
    (today : Int) (e0 : ProjectionEntry)
    (h : projPeriod0Entry config ov today = some e0) :
    projInitGoal config ov today =
      (if config.savingsGoal ≤ e0.balanceAfterBaseline then some 0
       else Option.none) := by
  unfold projInitGoal
  rw [h]

/-- C3 (amended): `generateProjection` always terminates with at most
`1 + maxPeriods` entries; only the `balanceAfterBaseline` track gates the
goal extension — if the first entry whose `balanceAfterBaseline` reaches
`savingsGoal` sits at list position `j`, the projection has at most
`j + extra + 2` entries (at most `j + extra + 1` when that first crossing
is a full period, i.e. `extra = ceil(3 · periods-per-month)` additional
periods beyond the crossing; a period-0 crossing admits one more); and when
no entry's `balanceAfterBaseline` reaches the goal the loop never stops
early: exactly one entry per future pay date (plus the optional period-0
entry), regardless of the other two balance tracks. -/
theorem c3_termination_and_extension (config : BudgetConfig) (ov : Option Rat)
    (today : Int) :
    (generateProjection config ov today).length ≤ 1 + maxPeriods ∧
    (∀ (j : Nat) (e : ProjectionEntry),
      (generateProjection config ov today).get? j = some e →
      config.savingsGoal ≤ e.balanceAfterBaseline →
      (∀ (j' : Nat) (e' : ProjectionEntry), j' < j →
        (generateProjection config ov today).get? j' = some e' →
        e'.balanceAfterBaseline < config.savingsGoal) →
      (generateProjection config ov today).length ≤
        j + extraPeriodsFor config.paycheckFrequency + 2 ∧
      (1 ≤ e.periodNumber →
        (generateProjection config ov today).length ≤
          j + extraPeriodsFor config.paycheckFrequency + 1)) ∧
    ((∀ e ∈ generateProjection config ov today,
        e.balanceAfterBaseline < config.savingsGoal) →
      (generateProjection config ov today).length =
        (projPeriod0Entry config ov today).toList.length +
          (projFuturePayDates config today).length) := by
  have hdec := generateProjection_decomp config ov today
  have hpayle := projFuturePayDates_length_le config today
  refine ⟨?_, ?_, ?_⟩
  · rw [hdec, List.length_append]
    have h1 : (projPeriod0Entry config ov today).toList.length ≤ 1 := by
      cases projPeriod0Entry config ov today <;> simp
    have h2 := projLoop_length_le config ov (projFuturePayDates config today)
      (projOccurrences config today) (projFuturePayDates config today).length
      0 (projInitBalance config ov today) (projInitGoal config ov today)
    omega
  · intro j e hj hcross hfirst
    cases hp0 : projPeriod0Entry config ov today with
    | none =>
        have hgoal0 := projInitGoal_of_none config ov today hp0
        rw [hp0, hgoal0, Option.toList_none, List.nil_append] at hdec
        rw [hdec] at hj hfirst ⊢
        have hb := projLoop_none_first_cross config ov
          (projFuturePayDates config today) (projOccurrences config today)
          (projFuturePayDates config today).length 0
          (projInitBalance config ov today) j e hj hcross hfirst
        exact ⟨by omega, fun _ => hb⟩
    | some e0 =>
        have hgoal := projInitGoal_of_p0 config ov today e0 hp0
        rw [hp0, Option.toList_some, List.singleton_append] at hdec
        cases j with
        | zero =>
            rw [hdec, List.get?_cons_zero] at hj
            injection hj with hj
            have hcr0 : config.savingsGoal ≤ e0.balanceAfterBaseline := by
              rw [hj]; exact hcross
            rw [if_pos hcr0] at hgoal
            rw [hgoal] at hdec
            constructor
            · rw [hdec, List.length_cons]
              have hx := projLoop_some_length_le config ov
                (projFuturePayDates config today)
                (projOccurrences config today)
                (projFuturePayDates config today).length 0
                (projInitBalance config ov today) 0
              omega
            · intro hpn
              rw [← hj] at hpn
              rw [projPeriod0Entry_pn config ov today e0 hp0] at hpn
              omega
        | succ j' =>
            have h0 := hfirst 0 e0 (by omega)
              (by rw [hdec, List.get?_cons_zero])
            rw [if_neg (not_le.mpr h0)] at hgoal
            rw [hgoal] at hdec
            rw [hdec, List.get?_cons_succ] at hj
            have hb := projLoop_none_first_cross config ov
              (projFuturePayDates config today) (projOccurrences config today)
              (projFuturePayDates config today).length 0
              (projInitBalance config ov today) j' e hj hcross
              (fun j'' e'' hlt hget =>
                hfirst (j'' + 1) e'' (by omega)
                  (by rw [hdec, List.get?_cons_succ]; exact hget))
            constructor
            · rw [hdec, List.length_cons]
              omega
            · intro hpn
              rw [hdec, List.length_cons]
              omega
  · intro hall
    cases hp0 : projPeriod0Entry config ov today with
    | none =>
        have hgoal0 := projInitGoal_of_none config ov today hp0
        rw [hp0, hgoal0, Option.toList_none, List.nil_append] at hdec
        rw [hdec]
        rw [projLoop_none_nocross_length config ov
          (projFuturePayDates config today) (projOccurrences config today)
          (projFuturePayDates config today).length 0
          (projInitBalance config ov today)
          (fun e he => hall e (by rw [hdec]; exact he))]
        simp only [Option.toList_none, List.length_nil]
        omega
    | some e0 =>
        rw [hp0, Option.toList_some, List.singleton_append] at hdec
        have h0cross : e0.balanceAfterBaseline < config.savingsGoal :=
          hall e0 (by rw [hdec]; exact List.mem_cons_self _ _)
        have hgoal := projInitGoal_of_p0 config ov today e0 hp0
        rw [if_neg (not_le.mpr h0cross)] at hgoal
        rw [hgoal] at hdec
        rw [hdec, List.length_cons]
        rw [projLoop_none_nocross_length config ov
          (projFuturePayDates config today) (projOccurrences config today)
          (projFuturePayDates config today).length 0
          (projInitBalance config ov today)
          (fun e he => hall e (by rw [hdec]; exact List.mem_cons_of_mem _ he))]
        simp only [Option.toList_some, List.length_singleton]
        omega

set_option maxRecDepth 40000 in
unseal Rat.add Rat.mul Rat.sub Rat.inv in
/-- C3 witness: at `c3cfg` the cap bound holds, and the extension bound for
a crossing at position 0 (the period-0 entry, balance 100 ≥ goal 50) gives
at most `extra + 2` entries. -/
theorem c3_witness :
    (generateProjection c3cfg Option.none 0).length ≤ 1 + maxPeriods ∧
    (generateProjection c3cfg Option.none 0).length ≤
      0 + extraPeriodsFor c3cfg.paycheckFrequency + 2 :=
  ⟨(c3_termination_and_extension c3cfg Option.none 0).1,
   ((c3_termination_and_extension c3cfg Option.none 0).2.1 0 c3p0entry
      (by decide) (by decide)
      (fun j' e' hlt _ => absurd hlt (Nat.not_lt_zero j'))).1⟩

set_option maxRecDepth 40000 in
unseal Rat.add Rat.mul Rat.sub Rat.inv in
/-- C3 counterexample: at `c3cfg` the goal is first crossed at position 0
(period 0), `extra = ceil(3 · 26/12) = 7`, yet 9 entries are emitted — 8
full periods follow the crossing, one more than the claimed bound of
`ceil(3 × periods-per-month) = 7` additional periods. -/
theorem c3_counterexample :
    extraPeriodsFor PayFrequency.biweekly = 7 ∧
    (generateProjection c3cfg Option.none 0).length = 9 ∧
    ((generateProjection c3cfg Option.none 0).get? 0).map
      (fun e => (e.periodNumber,
        decide (c3cfg.savingsGoal ≤ e.balanceAfterBaseline))) =
      some (0, true) := by
  refine ⟨by decide, by decide, by decide⟩

/-! ## C2: generatePayDates -/

/-- The month stepping keeps a valid 0-based month and advances the linear
month index by one. -/
theorem nextMonthStep_spec (y m : Int) (h0 : 0 ≤ m) (h1 : m ≤ 11) :
    12 * (nextMonthStep y m).1 + (nextMonthStep y m).2 = 12 * y + m + 1 ∧
    0 ≤ (nextMonthStep y m).2 ∧ (nextMonthStep y m).2 ≤ 11 := by
  unfold nextMonthStep
  split <;> simp <;> omega

/-- Every fixed-interval date is at least the adjusted start. -/
theorem fixedIntervalDates_mem_ge (wh : WeekendHandling) (step : Int)
    (hstep : 0 ≤ step) :
    ∀ (n : Nat) (cur : Int), ∀ d ∈ fixedIntervalDates wh step n cur,
      adjustForWeekend cur wh ≤ d := by
  intro n
  induction n with
  | zero => intro cur d hd; exact absurd hd (List.not_mem_nil d)
  | succ k ih =>
      intro cur d hd
      simp only [fixedIntervalDates] at hd
      rcases List.mem_cons.mp hd with h | h
      · exact le_of_eq h.symm
      · have h1 := ih (cur + step) d h
        have h2 := adjustForWeekend_mono wh (show cur ≤ cur + step by omega)
        omega

/-- Fixed-interval dates are emitted in non-decreasing order. -/
theorem fixedIntervalDates_pairwise (wh : WeekendHandling) (step : Int)
    (hstep : 0 ≤ step) :
    ∀ (n : Nat) (cur : Int),
      (fixedIntervalDates wh step n cur).Pairwise (· ≤ ·) := by
  intro n
  induction n with
  | zero => intro cur; simp [fixedIntervalDates]
  | succ k ih =>
      intro cur
      simp only [fixedIntervalDates]
      refine List.pairwise_cons.mpr ⟨?_, ih (cur + step)⟩
      intro d hd
      have h1 := fixedIntervalDates_mem_ge wh step hstep k (cur + step) d hd
      have h2 := adjustForWeekend_mono wh (show cur ≤ cur + step by omega)
      omega

/-- The two semi-monthly pay days of a month are sorted and lie between the
adjusted first and adjusted last day of the month. -/
theorem getSemiMonthlyPayDays_spec (y m : Int) (smc : SemiMonthlyConfig)
    (wh : WeekendHandling) (h1 : 1 ≤ smc.firstPayDay)
    (h2 : 1 ≤ smc.secondPayDay) :
    (getSemiMonthlyPayDaysForMonth y m smc wh).Pairwise (· ≤ ·) ∧
    ∀ p ∈ getSemiMonthlyPayDaysForMonth y m smc wh,
      adjustForWeekend (daysFromCivil y m 1) wh ≤ p ∧
      p ≤ adjustForWeekend (daysFromCivil y m (lastDayOfMonth y m)) wh := by
  have hdim := dimM_bounds (12 * y + m)
  have hlast : lastDayOfMonth y m = dimM (12 * y + m) := rfl
  have key : ∀ c : Int, 1 ≤ c →
      adjustForWeekend (daysFromCivil y m 1) wh ≤
        adjustForWeekend (daysFromCivil y m (min c (lastDayOfMonth y m))) wh ∧
      adjustForWeekend (daysFromCivil y m (min c (lastDayOfMonth y m))) wh ≤
        adjustForWeekend (daysFromCivil y m (lastDayOfMonth y m)) wh := by
    intro c hc
    constructor
    · apply adjustForWeekend_mono
      rw [daysFromCivil_linear, daysFromCivil_linear, hlast]
      omega
    · apply adjustForWeekend_mono
      rw [daysFromCivil_linear, daysFromCivil_linear, hlast]
      omega
  have ka := key smc.firstPayDay h1
  have kb := key smc.secondPayDay h2
  simp only [getSemiMonthlyPayDaysForMonth]
  split
  · next hab =>
      refine ⟨List.pairwise_cons.mpr ⟨?_, List.pairwise_singleton _ _⟩, ?_⟩
      · intro p hp
        rw [List.mem_singleton] at hp
        subst hp
        exact hab
      · intro p hp
        rcases List.mem_cons.mp hp with h | h
        · subst h
          exact ka
        · rw [List.mem_singleton] at h
          subst h
          exact kb
  · next hab =>
      refine ⟨List.pairwise_cons.mpr ⟨?_, List.pairwise_singleton _ _⟩, ?_⟩
      · intro p hp
        rw [List.mem_singleton] at hp
        subst hp
        omega
      · intro p hp
        rcases List.mem_cons.mp hp with h | h
        · subst h
          exact kb
        · rw [List.mem_singleton] at h
          subst h
          exact ka

/-- The monthly pay day lies between the adjusted first and adjusted last
day of the month. -/
theorem getMonthlyPayDay_spec (y m : Int) (mc : MonthlyConfig)
    (wh : WeekendHandling) (h1 : 1 ≤ mc.payDay) :
    adjustForWeekend (daysFromCivil y m 1) wh ≤
      getMonthlyPayDayForMonth y m mc wh ∧
    getMonthlyPayDayForMonth y m mc wh ≤
      adjustForWeekend (daysFromCivil y m (lastDayOfMonth y m)) wh := by
  have hdim := dimM_bounds (12 * y + m)
  have hlast : lastDayOfMonth y m = dimM (12 * y + m) := rfl
  unfold getMonthlyPayDayForMonth
  constructor
  · apply adjustForWeekend_mono
    rw [daysFromCivil_linear, daysFromCivil_linear, hlast]
    omega
  · apply adjustForWeekend_mono
    rw [daysFromCivil_linear, daysFromCivil_linear, hlast]
    omega

/-- The semi-monthly push fold never shrinks the date list. -/
theorem smFold_length_mono (startDate : Int) (maxCount : Nat) :
    ∀ (l ds : List Int),
      ds.length ≤
        (l.foldl
          (fun ds payDay =>
            if startDate ≤ payDay ∧ ds.length < maxCount then ds ++ [payDay]
            else ds) ds).length := by
  intro l
  induction l with
  | nil => intro ds; simp
  | cons p rest ih =>
      intro ds
      simp only [List.foldl_cons]
      have h2 : ds.length ≤
          (if startDate ≤ p ∧ ds.length < maxCount then ds ++ [p]
           else ds).length := by
        split
        · simp
        · exact le_refl _
      exact le_trans h2 (ih _)

/-- When every offered pay day is on/after the start date, the fold pushes
until the cap. -/
theorem smFold_length_push (startDate : Int) (maxCount : Nat) :
    ∀ (l ds : List Int), (∀ p ∈ l, startDate ≤ p) →
      min maxCount (ds.length + l.length) ≤
        (l.foldl
          (fun ds payDay =>
            if startDate ≤ payDay ∧ ds.length < maxCount then ds ++ [payDay]
            else ds) ds).length := by
  intro l
  induction l with
  | nil => intro ds _; simp
  | cons p rest ih =>
      intro ds hall
      simp only [List.foldl_cons, List.length_cons]
      by_cases hc : ds.length < maxCount
      · rw [if_pos ⟨hall p (List.mem_cons_self _ _), hc⟩]
        have hx := ih (ds ++ [p]) (fun q hq => hall q (List.mem_cons_of_mem _ hq))
        simp only [List.length_append, List.length_singleton] at hx
        omega
      · rw [if_neg (fun hx => hc hx.2)]
        have hm := smFold_length_mono startDate maxCount rest ds
        omega

/-- The push fold keeps the accumulated dates sorted and adds only offered
pay days. -/
theorem smFold_pairwise_mem (startDate : Int) (maxCount : Nat) :
    ∀ (l ds : List Int), ds.Pairwise (· ≤ ·) → l.Pairwise (· ≤ ·) →
      (∀ d ∈ ds, ∀ p ∈ l, d ≤ p) →
      ((l.foldl
          (fun ds payDay =>
            if startDate ≤ payDay ∧ ds.length < maxCount then ds ++ [payDay]
            else ds) ds).Pairwise (· ≤ ·) ∧
        ∀ d ∈ l.foldl
          (fun ds payDay =>
            if startDate ≤ payDay ∧ ds.length < maxCount then ds ++ [payDay]
            else ds) ds, d ∈ ds ∨ (d ∈ l ∧ startDate ≤ d)) := by
  intro l
  induction l with
  | nil => intro ds hds _ _; exact ⟨hds, fun d hd => Or.inl hd⟩
  | cons p rest ih =>
      intro ds hds hl hcross
      simp only [List.foldl_cons]
      have hlrest := (List.pairwise_cons.mp hl).2
      have hpall := (List.pairwise_cons.mp hl).1
      by_cases hc : startDate ≤ p ∧ ds.length < maxCount
      · rw [if_pos hc]
        have hds' : (ds ++ [p]).Pairwise (· ≤ ·) := by
          refine List.pairwise_append.mpr ⟨hds, List.pairwise_singleton _ _, ?_⟩
          intro x hx y hy
          rw [List.mem_singleton] at hy
          rw [hy]
          exact hcross x hx p (List.mem_cons_self _ _)
        have hcross' : ∀ d ∈ ds ++ [p], ∀ q ∈ rest, d ≤ q := by
          intro d hd q hq
          rcases List.mem_append.mp hd with h | h
          · exact hcross d h q (List.mem_cons_of_mem _ hq)
          · rw [List.mem_singleton] at h
            rw [h]
            exact hpall q hq
        obtain ⟨hp1, hp2⟩ := ih (ds ++ [p]) hds' hlrest hcross'
        refine ⟨hp1, ?_⟩
        intro d hd
        rcases hp2 d hd with h | h
        · rcases List.mem_append.mp h with h' | h'
          · exact Or.inl h'
          · rw [List.mem_singleton] at h'
            rw [h']
            exact Or.inr ⟨List.mem_cons_self _ _, hc.1⟩
        · exact Or.inr ⟨List.mem_cons_of_mem _ h.1, h.2⟩
      · rw [if_neg hc]
        obtain ⟨hp1, hp2⟩ := ih ds hds hlrest
          (fun d hd q hq => hcross d hd q (List.mem_cons_of_mem _ hq))
        exact ⟨hp1, fun d hd =>
          (hp2 d hd).imp id (fun hx => ⟨List.mem_cons_of_mem _ hx.1, hx.2⟩)⟩

/-- Each month offers exactly two semi-monthly pay days. -/
theorem getSemiMonthlyPayDays_length (y m : Int) (smc : SemiMonthlyConfig)
    (wh : WeekendHandling) :
    (getSemiMonthlyPayDaysForMonth y m smc wh).length = 2 := by
  simp only [getSemiMonthlyPayDaysForMonth]
  split <;> rfl

/-- The semi-monthly month loop keeps its dates sorted and on/after the
start date. -/
theorem semiMonthlyLoop_pairwise_ge (smc : SemiMonthlyConfig)
    (wh : WeekendHandling) (start : Int) (maxCount : Nat)
    (h1 : 1 ≤ smc.firstPayDay) (h2 : 1 ≤ smc.secondPayDay) :
    ∀ (fuel : Nat) (y m : Int) (dates : List Int), 0 ≤ m → m ≤ 11 →
      dates.Pairwise (· ≤ ·) →
      (∀ d ∈ dates, start ≤ d) →
      (∀ d ∈ dates, d ≤ adjustForWeekend (daysFromCivil y m 1) wh) →
      ((semiMonthlyLoop smc wh start maxCount fuel y m dates).Pairwise
          (· ≤ ·) ∧
        ∀ d ∈ semiMonthlyLoop smc wh start maxCount fuel y m dates,
          start ≤ d) := by
  intro fuel
  induction fuel with
  | zero =>
      intro y m dates _ _ hp hge _
      simp only [semiMonthlyLoop]
      exact ⟨hp, hge⟩
  | succ n ih =>
      intro y m dates hm0 hm1 hp hge hub
      simp only [semiMonthlyLoop]
      split
      · obtain ⟨hlp, hlmem⟩ := getSemiMonthlyPayDays_spec y m smc wh h1 h2
        have hcross : ∀ d ∈ dates,
            ∀ p ∈ getSemiMonthlyPayDaysForMonth y m smc wh, d ≤ p := by
          intro d hd p hp'
          have ha := (hlmem p hp').1
          have hb := hub d hd
          omega
        obtain ⟨hp', hmem'⟩ := smFold_pairwise_mem start maxCount
          (getSemiMonthlyPayDaysForMonth y m smc wh) dates hp hlp hcross
        obtain ⟨hlin, hm0', hm1'⟩ := nextMonthStep_spec y m hm0 hm1
        have hnext : adjustForWeekend
            (daysFromCivil y m (lastDayOfMonth y m)) wh ≤
            adjustForWeekend (daysFromCivil (nextMonthStep y m).1
              (nextMonthStep y m).2 1) wh := by
          apply adjustForWeekend_mono
          rw [daysFromCivil_linear, daysFromCivil_linear]
          have hs := firstOfM_succ (12 * y + m)
          have hd := dimM_bounds (12 * y + m)
          have hlast : lastDayOfMonth y m = dimM (12 * y + m) := rfl
          rw [hlast, show 12 * (nextMonthStep y m).1 + (nextMonthStep y m).2 =
            12 * y + m + 1 from by omega]
          omega
        have hnext1 : adjustForWeekend (daysFromCivil y m 1) wh ≤
            adjustForWeekend (daysFromCivil (nextMonthStep y m).1
              (nextMonthStep y m).2 1) wh := by
          apply adjustForWeekend_mono
          rw [daysFromCivil_linear, daysFromCivil_linear]
          have hs := firstOfM_succ (12 * y + m)
          have hd := dimM_bounds (12 * y + m)
          rw [show 12 * (nextMonthStep y m).1 + (nextMonthStep y m).2 =
            12 * y + m + 1 from by omega]
          omega
        refine ih (nextMonthStep y m).1 (nextMonthStep y m).2 _ hm0' hm1'
          hp' ?_ ?_
        · intro d hd
          rcases hmem' d hd with h | h
          · exact hge d h
          · exact h.2
        · intro d hd
          rcases hmem' d hd with h | h
          · have := hub d h
            omega
          · have := (hlmem d h.1).2
            omega
      · exact ⟨hp, hge⟩

/-- The monthly month loop keeps its dates sorted and on/after the start
date. -/
theorem monthlyLoop_pairwise_ge (mc : MonthlyConfig) (wh : WeekendHandling)
    (start : Int) (maxCount : Nat) (h1 : 1 ≤ mc.payDay) :
    ∀ (fuel : Nat) (y m : Int) (dates : List Int), 0 ≤ m → m ≤ 11 →
      dates.Pairwise (· ≤ ·) →
      (∀ d ∈ dates, start ≤ d) →
      (∀ d ∈ dates, d ≤ adjustForWeekend (daysFromCivil y m 1) wh) →
      ((monthlyLoop mc wh start maxCount fuel y m dates).Pairwise (· ≤ ·) ∧
        ∀ d ∈ monthlyLoop mc wh start maxCount fuel y m dates, start ≤ d) := by
  intro fuel
  induction fuel with
  | zero =>
      intro y m dates _ _ hp hge _
      simp only [monthlyLoop]
      exact ⟨hp, hge⟩
  | succ n ih =>
      intro y m dates hm0 hm1 hp hge hub
      simp only [monthlyLoop]
      split
      · obtain ⟨hlo, hhi⟩ := getMonthlyPayDay_spec y m mc wh h1
        obtain ⟨hlin, hm0', hm1'⟩ := nextMonthStep_spec y m hm0 hm1
        have hnext : adjustForWeekend
            (daysFromCivil y m (lastDayOfMonth y m)) wh ≤
            adjustForWeekend (daysFromCivil (nextMonthStep y m).1
              (nextMonthStep y m).2 1) wh := by
          apply adjustForWeekend_mono
          rw [daysFromCivil_linear, daysFromCivil_linear]
          have hs := firstOfM_succ (12 * y + m)
          have hd := dimM_bounds (12 * y + m)
          have hlast : lastDayOfMonth y m = dimM (12 * y + m) := rfl
          rw [hlast, show 12 * (nextMonthStep y m).1 + (nextMonthStep y m).2 =
            12 * y + m + 1 from by omega]
          omega
        have hnext1 : adjustForWeekend (daysFromCivil y m 1) wh ≤
            adjustForWeekend (daysFromCivil (nextMonthStep y m).1
              (nextMonthStep y m).2 1) wh := by
          apply adjustForWeekend_mono
          rw [daysFromCivil_linear, daysFromCivil_linear]
          have hs := firstOfM_succ (12 * y + m)
          have hd := dimM_bounds (12 * y + m)
          rw [show 12 * (nextMonthStep y m).1 + (nextMonthStep y m).2 =
            12 * y + m + 1 from by omega]
          omega
        refine ih (nextMonthStep y m).1 (nextMonthStep y m).2 _ hm0' hm1'
          ?_ ?_ ?_
        · split
          · next hpush =>
              refine List.pairwise_append.mpr
                ⟨hp, List.pairwise_singleton _ _, ?_⟩
              intro x hx z hz
              rw [List.mem_singleton] at hz
              rw [hz]
              have := hub x hx
              omega
          · exact hp
        · split
          · next hpush =>
              intro d hd
              rcases List.mem_append.mp hd with h | h
              · exact hge d h
              · rw [List.mem_singleton] at h
                rw [h]
                exact hpush
          · exact hge
        · split
          · intro d hd
            rcases List.mem_append.mp hd with h | h
            · have := hub d h
              omega
            · rw [List.mem_singleton] at h
              rw [h]
              omega
          · intro d hd
            have := hub d hd
            omega
      · exact ⟨hp, hge⟩

/-- Fuel sufficiency for the semi-monthly loop: after at most `k` grace
months the loop emits two dates per month until the cap. -/
theorem semiMonthlyLoop_length_ge (smc : SemiMonthlyConfig)
    (wh : WeekendHandling) (start : Int) (maxCount : Nat)
    (h1 : 1 ≤ smc.firstPayDay) (h2 : 1 ≤ smc.secondPayDay) :
    ∀ (fuel k : Nat) (y m G : Int) (dates : List Int), 0 ≤ m → m ≤ 11 →
      12 * y + m + k = G →
      start ≤ firstOfM G - 2 →
      min maxCount (dates.length + (fuel - k)) ≤
        (semiMonthlyLoop smc wh start maxCount fuel y m dates).length := by
  intro fuel
  induction fuel with
  | zero =>
      intro k y m G dates _ _ _ _
      simp only [semiMonthlyLoop, Nat.zero_sub]
      omega
  | succ n ih =>
      intro k y m G dates hm0 hm1 heq hgr
      simp only [semiMonthlyLoop]
      split
      · next hlen =>
          obtain ⟨hlin, hm0', hm1'⟩ := nextMonthStep_spec y m hm0 hm1
          cases k with
          | zero =>
              have he0 : 12 * y + m = G := by push_cast at heq; omega
              obtain ⟨-, hlmem⟩ := getSemiMonthlyPayDays_spec y m smc wh h1 h2
              have hall : ∀ p ∈ getSemiMonthlyPayDaysForMonth y m smc wh,
                  start ≤ p := by
                intro p hp
                have ha := (hlmem p hp).1
                have hb := (adjustForWeekend_bounds (daysFromCivil y m 1) wh).1
                have hlin1 := daysFromCivil_linear y m 1
                rw [he0] at hlin1
                omega
              have hpush := smFold_length_push start maxCount
                (getSemiMonthlyPayDaysForMonth y m smc wh) dates hall
              rw [getSemiMonthlyPayDays_length] at hpush
              have hx := ih 0 (nextMonthStep y m).1 (nextMonthStep y m).2
                (G + 1) ((getSemiMonthlyPayDaysForMonth y m smc wh).foldl
                (fun ds payDay =>
                  if start ≤ payDay ∧ ds.length < maxCount then ds ++ [payDay]
                  else ds) dates) hm0' hm1'
                (by push_cast; push_cast at heq; omega)
                (by
                  have hs := firstOfM_succ G
                  have hd := dimM_bounds G
                  omega)
              omega
          | succ k' =>
              have hmono := smFold_length_mono start maxCount
                (getSemiMonthlyPayDaysForMonth y m smc wh) dates
              have hx := ih k' (nextMonthStep y m).1 (nextMonthStep y m).2
                G ((getSemiMonthlyPayDaysForMonth y m smc wh).foldl
                (fun ds payDay =>
                  if start ≤ payDay ∧ ds.length < maxCount then ds ++ [payDay]
                  else ds) dates) hm0' hm1'
                (by push_cast; push_cast at heq; omega) hgr
              omega
      · next hlen =>
          omega

/-- Fuel sufficiency for the monthly loop. -/
theorem monthlyLoop_length_ge (mc : MonthlyConfig) (wh : WeekendHandling)
    (start : Int) (maxCount : Nat) (h1 : 1 ≤ mc.payDay) :
    ∀ (fuel k : Nat) (y m G : Int) (dates : List Int), 0 ≤ m → m ≤ 11 →
      12 * y + m + k = G →
      start ≤ firstOfM G - 2 →
      min maxCount (dates.length + (fuel - k)) ≤
        (monthlyLoop mc wh start maxCount fuel y m dates).length := by
  intro fuel
  induction fuel with
  | zero =>
      intro k y m G dates _ _ _ _
      simp only [monthlyLoop, Nat.zero_sub]
      omega
  | succ n ih =>
      intro k y m G dates hm0 hm1 heq hgr
      simp only [monthlyLoop]
      split
      · next hlen =>
          obtain ⟨hlin, hm0', hm1'⟩ := nextMonthStep_spec y m hm0 hm1
          cases k with
          | zero =>
              have he0 : 12 * y + m = G := by push_cast at heq; omega
              obtain ⟨hlo, -⟩ := getMonthlyPayDay_spec y m mc wh h1
              have hpd : start ≤ getMonthlyPayDayForMonth y m mc wh := by
                have hb := (adjustForWeekend_bounds (daysFromCivil y m 1) wh).1
                have hlin1 := daysFromCivil_linear y m 1
                rw [he0] at hlin1
                omega
              rw [if_pos hpd]
              have hx := ih 0 (nextMonthStep y m).1 (nextMonthStep y m).2
                (G + 1) (dates ++ [getMonthlyPayDayForMonth y m mc wh])
                hm0' hm1' (by push_cast; push_cast at heq; omega)
                (by
                  have hs := firstOfM_succ G
                  have hd := dimM_bounds G
                  omega)
              simp only [List.length_append, List.length_singleton] at hx
              omega
          | succ k' =>
              have hlm : dates.length ≤
                  (if start ≤ getMonthlyPayDayForMonth y m mc wh then
                    dates ++ [getMonthlyPayDayForMonth y m mc wh]
                  else dates).length := by
                split
                · simp
                · exact le_refl _
              have hx := ih k' (nextMonthStep y m).1 (nextMonthStep y m).2
                G (if start ≤ getMonthlyPayDayForMonth y m mc wh then
                    dates ++ [getMonthlyPayDayForMonth y m mc wh]
                  else dates) hm0' hm1'
                (by push_cast; push_cast at heq; omega) hgr
              omega
      · next hlen =>
          omega

/-- C2 (amended): `generatePayDates` returns exactly `maxCount` dates
(given pay days ≥ 1 for the calendar-based frequencies), in non-decreasing
order; every date is on/after
`min nextPayDate (adjustForWeekend nextPayDate weekendHandling)` — for
weekly/bi-weekly pay the 'before' weekend adjustment can move a date up to
two days BEFORE `nextPayDate` — while for the semi-monthly and monthly
frequencies every date is on/after `nextPayDate` itself. -/
theorem c2_generatePayDates (config : BudgetConfig) (maxCount : Nat)
    (h1 : 1 ≤ config.semiMonthlyConfig.firstPayDay)
    (h2 : 1 ≤ config.semiMonthlyConfig.secondPayDay)
    (h3 : 1 ≤ config.monthlyConfig.payDay) :
    (generatePayDates config maxCount).length = maxCount ∧
    (generatePayDates config maxCount).Pairwise (· ≤ ·) ∧
    (∀ d ∈ generatePayDates config maxCount,
      min config.nextPayDate
        (adjustForWeekend config.nextPayDate config.weekendHandling) ≤ d) ∧
    ((config.paycheckFrequency = PayFrequency.semimonthly ∨
        config.paycheckFrequency = PayFrequency.monthly) →
      ∀ d ∈ generatePayDates config maxCount, config.nextPayDate ≤ d) := by
  obtain ⟨hrt, hm0, hm11, hd1, hdm⟩ := dayNumberToYmd_spec config.nextPayDate
  have hdim0 : dimM (12 * (dayNumberToYmd config.nextPayDate).y +
      (dayNumberToYmd config.nextPayDate).m) =
      daysInMonth (dayNumberToYmd config.nextPayDate).y
        (dayNumberToYmd config.nextPayDate).m := by
    unfold dimM
    congr 1 <;> omega
  have hgrace : config.nextPayDate ≤
      firstOfM (12 * (dayNumberToYmd config.nextPayDate).y +
        (dayNumberToYmd config.nextPayDate).m + 2) - 2 := by
    have hlin := daysFromCivil_linear (dayNumberToYmd config.nextPayDate).y
      (dayNumberToYmd config.nextPayDate).m
      (dayNumberToYmd config.nextPayDate).d
    rw [hrt] at hlin
    have hs1 := firstOfM_succ (12 * (dayNumberToYmd config.nextPayDate).y +
      (dayNumberToYmd config.nextPayDate).m)
    have hs2 := firstOfM_succ (12 * (dayNumberToYmd config.nextPayDate).y +
      (dayNumberToYmd config.nextPayDate).m + 1)
    rw [show 12 * (dayNumberToYmd config.nextPayDate).y +
      (dayNumberToYmd config.nextPayDate).m + 1 + 1 =
      12 * (dayNumberToYmd config.nextPayDate).y +
      (dayNumberToYmd config.nextPayDate).m + 2 from by ring] at hs2
    have hb1 := dimM_bounds (12 * (dayNumberToYmd config.nextPayDate).y +
      (dayNumberToYmd config.nextPayDate).m)
    have hb2 := dimM_bounds (12 * (dayNumberToYmd config.nextPayDate).y +
      (dayNumberToYmd config.nextPayDate).m + 1)
    omega
  cases hfq : config.paycheckFrequency with
  | weekly =>
      have hgen : generatePayDates config maxCount =
          fixedIntervalDates config.weekendHandling 7 maxCount
            config.nextPayDate := by
        simp only [generatePayDates, hfq]
      rw [hgen]
      refine ⟨fixedIntervalDates_length _ _ _ _,
        fixedIntervalDates_pairwise _ _ (by omega) _ _, ?_, ?_⟩
      · intro d hd
        have hx := fixedIntervalDates_mem_ge config.weekendHandling 7
          (by omega) maxCount config.nextPayDate d hd
        omega
      · rintro (h | h) <;> cases h
  | biweekly =>
      have hgen : generatePayDates config maxCount =
          fixedIntervalDates config.weekendHandling 14 maxCount
            config.nextPayDate := by
        simp only [generatePayDates, hfq]
      rw [hgen]
      refine ⟨fixedIntervalDates_length _ _ _ _,
        fixedIntervalDates_pairwise _ _ (by omega) _ _, ?_, ?_⟩
      · intro d hd
        have hx := fixedIntervalDates_mem_ge config.weekendHandling 14
          (by omega) maxCount config.nextPayDate d hd
        omega
      · rintro (h | h) <;> cases h
  | semimonthly =>
      have hgen : generatePayDates config maxCount =
          semiMonthlyLoop config.semiMonthlyConfig config.weekendHandling
            config.nextPayDate maxCount (maxCount + 4)
            (dayNumberToYmd config.nextPayDate).y
            (dayNumberToYmd config.nextPayDate).m [] := by
        simp only [generatePayDates, hfq]
      rw [hgen]
      obtain ⟨hpair, hge⟩ := semiMonthlyLoop_pairwise_ge
        config.semiMonthlyConfig config.weekendHandling config.nextPayDate
        maxCount h1 h2 (maxCount + 4) (dayNumberToYmd config.nextPayDate).y
        (dayNumberToYmd config.nextPayDate).m [] hm0 hm11 (by simp)
        (by simp) (by simp)
      have hle := semiMonthlyLoop_length_le config.semiMonthlyConfig
        config.weekendHandling config.nextPayDate maxCount (maxCount + 4)
        (dayNumberToYmd config.nextPayDate).y
        (dayNumberToYmd config.nextPayDate).m [] (by simp)
      have hgelen := semiMonthlyLoop_length_ge config.semiMonthlyConfig
        config.weekendHandling config.nextPayDate maxCount h1 h2
        (maxCount + 4) 2 (dayNumberToYmd config.nextPayDate).y
        (dayNumberToYmd config.nextPayDate).m
        (12 * (dayNumberToYmd config.nextPayDate).y +
          (dayNumberToYmd config.nextPayDate).m + 2) [] hm0 hm11
        (by push_cast; ring) hgrace
      refine ⟨by simp at hgelen; omega, hpair, ?_, fun _ => hge⟩
      intro d hd
      exact le_trans (min_le_left _ _) (hge d hd)
  | monthly =>
      have hgen : generatePayDates config maxCount =
          monthlyLoop config.monthlyConfig config.weekendHandling
            config.nextPayDate maxCount (maxCount + 4)
            (dayNumberToYmd config.nextPayDate).y
            (dayNumberToYmd config.nextPayDate).m [] := by
        simp only [generatePayDates, hfq]
      rw [hgen]
      obtain ⟨hpair, hge⟩ := monthlyLoop_pairwise_ge config.monthlyConfig
        config.weekendHandling config.nextPayDate maxCount h3 (maxCount + 4)
        (dayNumberToYmd config.nextPayDate).y
        (dayNumberToYmd config.nextPayDate).m [] hm0 hm11 (by simp)
        (by simp) (by simp)
      have hle := monthlyLoop_length_le config.monthlyConfig
        config.weekendHandling config.nextPayDate maxCount (maxCount + 4)
        (dayNumberToYmd config.nextPayDate).y
        (dayNumberToYmd config.nextPayDate).m [] (by simp)
      have hgelen := monthlyLoop_length_ge config.monthlyConfig
        config.weekendHandling config.nextPayDate maxCount h3
        (maxCount + 4) 2 (dayNumberToYmd config.nextPayDate).y
        (dayNumberToYmd config.nextPayDate).m
        (12 * (dayNumberToYmd config.nextPayDate).y +
          (dayNumberToYmd config.nextPayDate).m + 2) [] hm0 hm11
        (by push_cast; ring) hgrace
      refine ⟨by simp at hgelen; omega, hpair, ?_, fun _ => hge⟩
      intro d hd
      exact le_trans (min_le_left _ _) (hge d hd)

/-- C2 witness: the amended contract on the default (bi-weekly) config with
3 requested dates. -/
theorem c2_witness :
    (generatePayDates (DEFAULT_CONFIG 0) 3).length = 3 ∧
    ∀ d ∈ generatePayDates (DEFAULT_CONFIG 0) 3,
      min (DEFAULT_CONFIG 0).nextPayDate
        (adjustForWeekend (DEFAULT_CONFIG 0).nextPayDate
          (DEFAULT_CONFIG 0).weekendHandling) ≤ d :=
  ⟨(c2_generatePayDates (DEFAULT_CONFIG 0) 3 (by decide) (by decide)
      (by decide)).1,
   (c2_generatePayDates (DEFAULT_CONFIG 0) 3 (by decide) (by decide)
      (by decide)).2.2.1⟩

/-- C2 counterexample: a weekly config whose next pay date 2024-06-01 is a
Saturday with 'before' weekend handling emits its first pay date one day
BEFORE `nextPayDate` — the claim "every returned date is on or after the
configured nextPayDate" is false on the code. -/
theorem c2_counterexample :
    generatePayDates c2cfg 1 = [c2cfg.nextPayDate - 1] ∧
    dayOfWeek c2cfg.nextPayDate = 6 ∧
    c2cfg.nextPayDate - 1 < c2cfg.nextPayDate := by
  refine ⟨by decide, by decide, by decide⟩

end Budget

